import Mathlib

/-!
Verification development for the chain-mock library (`src/mock.ts` and the
chain matchers module). The definitions below are a shallow embedding of the
TypeScript source: JS values become the inductive `Val` (with `Val.undef`
playing the role of `undefined`), the `Map<string, PathState>` keyed by
`path.join('.')` becomes an association list keyed by `pathKey`, custom
implementations become Lean functions returning `Except` (thrown error or
return value), and proxy identity is modelled by numeric node ids handed out
by the proxy cache. Promise-returning custom implementations are outside the
modelled value universe (no claim exercises them); everything else follows
the source line by line.
-/

namespace ChainMock

/-- JS-style runtime values. `undef` models `undefined`. -/
inductive Val where
  | undef
  | vnull
  | vbool (b : Bool)
  | vint (n : Int)
  | vstr (s : String)
  | vlist (elems : List Val)
deriving Repr

mutual

/-- Decidable equality for `Val` (hand-rolled: the nested `List Val`
constructor defeats automatic derivation). -/
def Val.decEq : (a b : Val) → Decidable (a = b)
  | .undef, .undef => isTrue rfl
  | .undef, .vnull => isFalse (fun h => Val.noConfusion h)
  | .undef, .vbool _ => isFalse (fun h => Val.noConfusion h)
  | .undef, .vint _ => isFalse (fun h => Val.noConfusion h)
  | .undef, .vstr _ => isFalse (fun h => Val.noConfusion h)
  | .undef, .vlist _ => isFalse (fun h => Val.noConfusion h)
  | .vnull, .undef => isFalse (fun h => Val.noConfusion h)
  | .vnull, .vnull => isTrue rfl
  | .vnull, .vbool _ => isFalse (fun h => Val.noConfusion h)
  | .vnull, .vint _ => isFalse (fun h => Val.noConfusion h)
  | .vnull, .vstr _ => isFalse (fun h => Val.noConfusion h)
  | .vnull, .vlist _ => isFalse (fun h => Val.noConfusion h)
  | .vbool _, .undef => isFalse (fun h => Val.noConfusion h)
  | .vbool _, .vnull => isFalse (fun h => Val.noConfusion h)
  | .vbool x, .vbool y =>
    if h : x = y then isTrue (by rw [h])
    else isFalse (by intro hh; injection hh with h1; exact h h1)
  | .vbool _, .vint _ => isFalse (fun h => Val.noConfusion h)
  | .vbool _, .vstr _ => isFalse (fun h => Val.noConfusion h)
  | .vbool _, .vlist _ => isFalse (fun h => Val.noConfusion h)
  | .vint _, .undef => isFalse (fun h => Val.noConfusion h)
  | .vint _, .vnull => isFalse (fun h => Val.noConfusion h)
  | .vint _, .vbool _ => isFalse (fun h => Val.noConfusion h)
  | .vint x, .vint y =>
    if h : x = y then isTrue (by rw [h])
    else isFalse (by intro hh; injection hh with h1; exact h h1)
  | .vint _, .vstr _ => isFalse (fun h => Val.noConfusion h)
  | .vint _, .vlist _ => isFalse (fun h => Val.noConfusion h)
  | .vstr _, .undef => isFalse (fun h => Val.noConfusion h)
  | .vstr _, .vnull => isFalse (fun h => Val.noConfusion h)
  | .vstr _, .vbool _ => isFalse (fun h => Val.noConfusion h)
  | .vstr _, .vint _ => isFalse (fun h => Val.noConfusion h)
  | .vstr x, .vstr y =>
    if h : x = y then isTrue (by rw [h])
    else isFalse (by intro hh; injection hh with h1; exact h h1)
  | .vstr _, .vlist _ => isFalse (fun h => Val.noConfusion h)
  | .vlist _, .undef => isFalse (fun h => Val.noConfusion h)
  | .vlist _, .vnull => isFalse (fun h => Val.noConfusion h)
  | .vlist _, .vbool _ => isFalse (fun h => Val.noConfusion h)
  | .vlist _, .vint _ => isFalse (fun h => Val.noConfusion h)
  | .vlist _, .vstr _ => isFalse (fun h => Val.noConfusion h)
  | .vlist xs, .vlist ys =>
    match Val.decEqList xs ys with
    | isTrue h => isTrue (by rw [h])
    | isFalse h => isFalse (by intro hh; injection hh with h1; exact h h1)

/-- Decidable equality for lists of `Val`. -/
def Val.decEqList : (xs ys : List Val) → Decidable (xs = ys)
  | [], [] => isTrue rfl
  | [], _ :: _ => isFalse (fun h => List.noConfusion h)
  | _ :: _, [] => isFalse (fun h => List.noConfusion h)
  | x :: xs, y :: ys =>
    match Val.decEq x y, Val.decEqList xs ys with
    | isTrue h1, isTrue h2 => isTrue (by rw [h1, h2])
    | isFalse h1, _ => isFalse (by intro hh; injection hh with ha hb; exact h1 ha)
    | _, isFalse h2 => isFalse (by intro hh; injection hh with ha hb; exact h2 hb)

end

instance : DecidableEq Val := Val.decEq

/-- A custom mock implementation: given the call arguments it either returns
a value (`ok`) or throws (`error`). -/
def Impl : Type := List Val → Except Val Val

/-- Result descriptor of one recorded call (`type: 'return' | 'throw' | 'incomplete'`). -/
inductive ResultDesc where
  | ret (v : Val)
  | threw (v : Val)
  | incomplete
deriving Repr, DecidableEq

/-- Settlement descriptor (`type: 'fulfilled' | 'rejected' | 'incomplete'`). -/
inductive SettledDesc where
  | fulfilled (v : Val)
  | rejected (v : Val)
  | incomplete
deriving Repr, DecidableEq

/-- The per-path call registry (the `mock` context object). -/
structure CallRegistry where
  calls : List (List Val) := []
  results : List ResultDesc := []
  contexts : List Val := []
  instances : List Val := []
  invocationCallOrder : List Nat := []
  settledResults : List SettledDesc := []
deriving Repr, DecidableEq

/-- Per-path state, mirroring the `PathState` record of `mock.ts`.
A freshly created state (`{}`) is exactly what `getOrCreatePathState` builds. -/
structure PathState where
  mock : CallRegistry := {}
  resolvedValue : Val := .undef
  resolvedValueQueue : List Val := []
  rejectedValue : Val := .undef
  rejectedValueQueue : List Val := []
  returnValue : Val := .undef
  returnValueQueue : List Val := []
  implementation : Option Impl := none
  implementationOnce : List Impl := []
  mockName : String := "chainMock()"

/-- `path.join('.')`, the key of the path-state map and the proxy cache. -/
def pathKey (path : List String) : String := String.intercalate "." path

/-- Association-list lookup, modelling `Map.get`. -/
def alookup {β : Type} : List (String × β) → String → Option β
  | [], _ => none
  | p :: rest, k => if p.1 = k then some p.2 else alookup rest k

/-- Association-list update, modelling `Map.set`: replace the entry for the
key in place, or append a new entry. -/
def aset {β : Type} : List (String × β) → String → β → List (String × β)
  | [], k, v => [(k, v)]
  | p :: rest, k, v => if p.1 = k then (k, v) :: rest else p :: aset rest k v

/-- Whole mock instance: the `pathStates` map, the proxy cache (node ids
standing in for proxy object identity), the id supply, and the invocation
counter (module-global in the source; threaded here). -/
structure MockState where
  pathStates : List (String × PathState) := []
  proxyCache : List (String × Nat) := []
  nextProxyId : Nat := 0
  invocationCallCounter : Nat := 1

/-- `getOrCreatePathState`: return the state for the path, creating a fresh
one in the map if absent. -/
def getOrCreatePathState (m : MockState) (path : List String) : PathState × MockState :=
  let key := pathKey path
  match alookup m.pathStates key with
  | some st => (st, m)
  | none =>
    let st : PathState := {}
    (st, { m with pathStates := m.pathStates ++ [(key, st)] })

/-- `getOrCreateProxy`: return the cached node id for the path, or create the
path's state and a fresh node id and cache it. -/
def getOrCreateProxy (m : MockState) (path : List String) : Nat × MockState :=
  let key := pathKey path
  match alookup m.proxyCache key with
  | some pid => (pid, m)
  | none =>
    let m1 := (getOrCreatePathState m path).2
    let pid := m1.nextProxyId
    (pid, { m1 with proxyCache := m1.proxyCache ++ [(key, pid)],
                    nextProxyId := pid + 1 })

/-- Property access on the node at `path` with a non-reserved name:
descend to the cached/created child node. -/
def getChild (m : MockState) (path : List String) (prop : String) : Nat × MockState :=
  getOrCreateProxy m (path ++ [prop])

/-- Update the state stored at a path (creating it first if needed), the way
the configuration closures mutate the captured `state`. -/
def updatePathState (m : MockState) (path : List String) (f : PathState → PathState) :
    MockState :=
  let st := (getOrCreatePathState m path).1
  let m1 := (getOrCreatePathState m path).2
  { m1 with pathStates := aset m1.pathStates (pathKey path) (f st) }

/-- Overwrite the state stored at an existing key. -/
def setStateAt (m : MockState) (key : String) (st : PathState) : MockState :=
  { m with pathStates := aset m.pathStates key st }

def mockResolvedValue (m : MockState) (path : List String) (v : Val) : MockState :=
  updatePathState m path (fun st => { st with resolvedValue := v })

def mockResolvedValueOnce (m : MockState) (path : List String) (v : Val) : MockState :=
  updatePathState m path (fun st => { st with resolvedValueQueue := st.resolvedValueQueue ++ [v] })

def mockRejectedValue (m : MockState) (path : List String) (e : Val) : MockState :=
  updatePathState m path (fun st => { st with rejectedValue := e })

def mockRejectedValueOnce (m : MockState) (path : List String) (e : Val) : MockState :=
  updatePathState m path (fun st => { st with rejectedValueQueue := st.rejectedValueQueue ++ [e] })

def mockReturnValue (m : MockState) (path : List String) (v : Val) : MockState :=
  updatePathState m path (fun st => { st with returnValue := v })

def mockReturnValueOnce (m : MockState) (path : List String) (v : Val) : MockState :=
  updatePathState m path (fun st => { st with returnValueQueue := st.returnValueQueue ++ [v] })

def mockImplementation (m : MockState) (path : List String) (f : Impl) : MockState :=
  updatePathState m path (fun st => { st with implementation := some f })

def mockImplementationOnce (m : MockState) (path : List String) (f : Impl) : MockState :=
  updatePathState m path (fun st => { st with implementationOnce := st.implementationOnce ++ [f] })

def setMockName (m : MockState) (path : List String) (s : String) : MockState :=
  updatePathState m path (fun st => { st with mockName := s })

def getMockName (m : MockState) (path : List String) : String :=
  (getOrCreatePathState m path).1.mockName

/-- `mockClear()` invoked on the node at `path`: a thrown usage error on any
non-root path; on the root, empty every path state's call registry (leaving
configuration untouched) and return the root proxy. -/
def mockClear (m : MockState) (path : List String) : Except String (Nat × MockState) :=
  if path.length > 0 then
    .error ("mockClear() on a nested chain path (\"" ++ pathKey path ++
      "\") clears only that path and its children, not ancestors. " ++
      "Use chain.mockClear() on the root mock instead.")
  else
    let m1 := { m with pathStates := m.pathStates.map (fun p => (p.1, { p.2 with mock := {} })) }
    .ok (getOrCreateProxy m1 path)

/-- `mockReset()` on the node at `path`: a thrown usage error on any non-root
path; on the root, drop every path state and cached proxy, re-install a fresh
root state, and return a (new) root proxy. -/
def mockReset (m : MockState) (path : List String) : Except String (Nat × MockState) :=
  if path.length > 0 then
    .error ("mockReset() on a nested chain path (\"" ++ pathKey path ++
      "\") resets only that path and its children, not ancestors. " ++
      "Use chain.mockReset() on the root mock instead.")
  else
    let m1 := { m with pathStates := [(pathKey path, {})], proxyCache := [] }
    .ok (getOrCreateProxy m1 path)

/-- `hasConfiguredValue` from `apply`: does the state hold any configured
synchronous behavior (implementation, one-shot or persistent return value)? -/
def hasConfiguredValue (s : PathState) : Bool :=
  !s.implementationOnce.isEmpty || s.implementation.isSome ||
  !s.returnValueQueue.isEmpty || s.returnValue != Val.undef

/-- Does the state hold any configured asynchronous outcome (the condition of
the await-time walk in `then`)? -/
def hasAsyncValue (s : PathState) : Bool :=
  !s.rejectedValueQueue.isEmpty || s.rejectedValue != Val.undef ||
  !s.resolvedValueQueue.isEmpty || s.resolvedValue != Val.undef

/-- The prefixes of `path` visited by the upward walks, from the full path
down to the root: `["a","b"] ↦ [["a","b"], ["a"], []]`. -/
def ancestors (path : List String) : List (List String) :=
  ((List.range (path.length + 1)).reverse).map (fun i => path.take i)

/-- The `while` walk shared by `apply` and `then`: the key of the first
prefix (from the full path toward the root) whose state exists and satisfies
the predicate. -/
def findConfiguredKey (states : List (String × PathState)) (pred : PathState → Bool)
    (path : List String) : Option String :=
  (ancestors path).findSome? (fun p =>
    match alookup states (pathKey p) with
    | some st => if pred st then some (pathKey p) else none
    | none => none)

/-- The synchronous-behavior walk of `apply`. -/
def findSyncKey (states : List (String × PathState)) (path : List String) : Option String :=
  findConfiguredKey states hasConfiguredValue path

/-- The asynchronous-outcome walk of `then`. -/
def findAsyncKey (states : List (String × PathState)) (path : List String) : Option String :=
  findConfiguredKey states hasAsyncValue path

/-- The two-tier behavior lookup of `apply`: first the state keyed by the
bare last segment name alone, if it exists and has configured synchronous
behavior; otherwise the upward walk from the full path. -/
def resolveSyncKey (states : List (String × PathState)) (path : List String) : Option String :=
  let bare : Option String :=
    match path.getLast? with
    | some methodName =>
      match alookup states methodName with
      | some methodState =>
        if hasConfiguredValue methodState then some methodName else none
      | none => none
    | none => none
  match bare with
  | some k => some k
  | none => findSyncKey states path

/-- Outcome of invoking a node: a terminal value, a thrown error, or the
node itself (by id) for further chaining. -/
inductive ApplyOutcome where
  | value (v : Val)
  | thrown (e : Val)
  | chain (nodeId : Nat)
deriving Repr, DecidableEq

/-- Step 1 of `apply`: append the call entry (args, invocation order,
receiver) to the invoked path's registry. -/
def recordCall (m : MockState) (path : List String) (args : List Val) (thisArg : Val) :
    MockState :=
  let callOrder := m.invocationCallCounter
  let m0 := { m with invocationCallCounter := callOrder + 1 }
  updatePathState m0 path (fun st =>
    { st with mock := { st.mock with
        calls := st.mock.calls ++ [args],
        invocationCallOrder := st.mock.invocationCallOrder ++ [callOrder],
        contexts := st.mock.contexts ++ [thisArg] } })

/-- Append a result/settlement pair to the registry at `key`. -/
def pushResult (m : MockState) (key : String) (r : ResultDesc) (s : SettledDesc) :
    MockState :=
  match alookup m.pathStates key with
  | some st => setStateAt m key { st with mock := { st.mock with
      results := st.mock.results ++ [r],
      settledResults := st.mock.settledResults ++ [s] } }
  | none => m

/-- Run a custom implementation, recording return-or-throw on the invoked
path's registry (the `try`/`catch` of the impl branch). -/
def runImpl (m : MockState) (ownKey : String) (implFn : Impl) (args : List Val) :
    ApplyOutcome × MockState :=
  match implFn args with
  | .ok v => (.value v, pushResult m ownKey (.ret v) (.fulfilled v))
  | .error e => (.thrown e, pushResult m ownKey (.threw e) (.rejected e))

/-- Steps 2-5 of `apply`, after the call has been recorded: two-tier lookup,
then implementation (one-shot first), then one-shot return value, then
persistent return value, else record incomplete and return the node itself. -/
def applyOutcomeFrom (m1 : MockState) (path : List String) (args : List Val) :
    ApplyOutcome × MockState :=
  let key := pathKey path
  let useKey := (resolveSyncKey m1.pathStates path).getD key
  let useState := (alookup m1.pathStates useKey).getD {}
  match useState.implementationOnce with
  | implFn :: restOnce =>
    let m2 := setStateAt m1 useKey { useState with implementationOnce := restOnce }
    runImpl m2 key implFn args
  | [] =>
    match useState.implementation with
    | some implFn => runImpl m1 key implFn args
    | none =>
      match useState.returnValueQueue with
      | q :: restQ =>
        let m2 := setStateAt m1 useKey { useState with returnValueQueue := restQ }
        let m3 := pushResult m2 key (.ret q) (.fulfilled q)
        (.value q, m3)
      | [] =>
        if useState.returnValue != Val.undef then
          let m2 := pushResult m1 key (.ret useState.returnValue)
            (.fulfilled useState.returnValue)
          (.value useState.returnValue, m2)
        else
          let m2 := pushResult m1 key .incomplete .incomplete
          (.chain (getOrCreateProxy m2 path).1, (getOrCreateProxy m2 path).2)

/-- The full `apply` trap: record the call, then resolve and produce the
outcome. -/
def applyNode (m : MockState) (path : List String) (args : List Val) (thisArg : Val) :
    ApplyOutcome × MockState :=
  applyOutcomeFrom (recordCall m path args thisArg) path args

/-- How an await settles: fulfilled with a value or rejected with an error. -/
inductive SettleOutcome where
  | resolved (v : Val)
  | rejected (e : Val)
deriving Repr, DecidableEq

/-- Replace the last element of a list (the `arr[arr.length - 1] = x`
update); on an empty list the array contents are unchanged. -/
def setLast {α : Type} (l : List α) (a : α) : List α :=
  if l.isEmpty then l else l.dropLast ++ [a]

/-- Overwrite the last result/settlement entries of the registry at `key`. -/
def setLastResults (m : MockState) (key : String) (r : ResultDesc) (s : SettledDesc) :
    MockState :=
  match alookup m.pathStates key with
  | some st => setStateAt m key { st with mock := { st.mock with
      results := setLast st.mock.results r,
      settledResults := setLast st.mock.settledResults s } }
  | none => m

/-- The `then` trap: walk from the node's own path toward the root for the
first state with a configured asynchronous outcome, then settle — rejection
queue, persistent rejection, resolution queue, persistent resolution, else
`undefined` — updating the original node's last registry entries. -/
def thenResolve (m : MockState) (path : List String) : SettleOutcome × MockState :=
  let key := pathKey path
  let m1 := (getOrCreatePathState m path).2
  let useKey := (findAsyncKey m1.pathStates path).getD key
  let useState := (alookup m1.pathStates useKey).getD {}
  match useState.rejectedValueQueue with
  | e :: rest =>
    let m2 := setStateAt m1 useKey { useState with rejectedValueQueue := rest }
    (.rejected e, setLastResults m2 key (.threw e) (.rejected e))
  | [] =>
    if useState.rejectedValue != Val.undef then
      (.rejected useState.rejectedValue,
        setLastResults m1 key (.threw useState.rejectedValue)
          (.rejected useState.rejectedValue))
    else
      match useState.resolvedValueQueue with
      | v :: rest =>
        let m2 := setStateAt m1 useKey { useState with resolvedValueQueue := rest }
        (.resolved v, setLastResults m2 key (.ret v) (.fulfilled v))
      | [] =>
        let v := if useState.resolvedValue != Val.undef then useState.resolvedValue
                 else Val.undef
        (.resolved v, setLastResults m1 key (.ret v) (.fulfilled v))

/-- `chainMock()`: a fresh instance with its root proxy (and root state)
created; returns the root node id and the instance. -/
def chainMock : Nat × MockState := getOrCreateProxy {} []

/-- The state of a freshly created mock. -/
def chainMockInit : MockState := chainMock.2

/-! ### The matcher engine (chain matchers module, first file) -/

mutual

/-- `JSON.stringify` on the modelled value universe (used only inside
failure messages). -/
def jsonStr : Val → String
  | .undef => "undefined"
  | .vnull => "null"
  | .vbool b => cond b "true" "false"
  | .vint n => toString n
  | .vstr s => "\"" ++ s ++ "\""
  | .vlist l => "[" ++ jsonStrList l ++ "]"

def jsonStrList : List Val → String
  | [] => ""
  | [v] => jsonStr v
  | v :: rest => jsonStr v ++ "," ++ jsonStrList rest

end

/-- `JSON.stringify` of an argument array. -/
def jsonArgs (args : List Val) : String := jsonStr (.vlist args)

/-- `JSON.stringify` of a list of argument arrays. -/
def jsonArgsList (argsPerSegment : List (List Val)) : String :=
  jsonStr (.vlist (argsPerSegment.map .vlist))

/-- The matcher result handed back to the host framework. -/
structure SyncExpectationResult where
  pass : Bool
  message : String
deriving Repr, DecidableEq

/-- A matcher either returns a result or throws (models a synchronous
`throw`, which the matcher sources never perform). -/
abbrev MatcherResult := Except String SyncExpectationResult

/-- `getPathSegments`: the joined keys of every non-empty prefix of the
target path; `["select","from"] ↦ ["select", "select.from"]`. -/
def getPathSegments (path : List String) : List String :=
  if path.isEmpty then []
  else (List.range path.length).map (fun i => pathKey (path.take (i + 1)))

/-- `getPathState` of the matcher module. -/
def getPathState (states : List (String × PathState)) (segment : String) :
    Option PathState :=
  alookup states segment

/-- `Math.min` over a list of counts (the list is non-empty at every use
site). -/
def minList : List Nat → Nat
  | [] => 0
  | [n] => n
  | n :: rest => min n (minList rest)

/-- `Math.max` over a list of counts. -/
def maxList : List Nat → Nat
  | [] => 0
  | [n] => n
  | n :: rest => max n (maxList rest)

/-- The registry length of a segment (0 when the segment has no state). -/
def segmentCallCount (states : List (String × PathState)) (segment : String) : Nat :=
  ((getPathState states segment).map (fun st => st.mock.calls.length)).getD 0

/-- `toHaveBeenChainCalled`: every segment called at least once. -/
def toHaveBeenChainCalled (states : List (String × PathState)) (path : List String) :
    MatcherResult :=
  let segments := getPathSegments path
  if segments.isEmpty then
    .ok { pass := false, message := "Cannot check chain calls on root mock" }
  else
    let mismatches := segments.filterMap (fun segment =>
      if segmentCallCount states segment == 0 then
        some (segment ++ ": was never called")
      else none)
    let pass := mismatches.isEmpty
    .ok { pass := pass,
          message :=
            if pass then
              "Expected chain not to have been called, but all segments were called"
            else
              "Expected all segments to be called at least once, but:\n  " ++
                String.intercalate "\n  " mismatches }

/-- `toHaveBeenChainCalledTimes`: every segment called exactly `expected`
times. -/
def toHaveBeenChainCalledTimes (states : List (String × PathState))
    (path : List String) (expected : Nat) : MatcherResult :=
  let segments := getPathSegments path
  if segments.isEmpty then
    .ok { pass := false, message := "Cannot check chain calls on root mock" }
  else
    let mismatches := segments.filterMap (fun segment =>
      let callCount := segmentCallCount states segment
      if callCount != expected then
        some (segment ++ ": expected " ++ toString expected ++ ", got " ++
          toString callCount)
      else none)
    let pass := mismatches.isEmpty
    .ok { pass := pass,
          message :=
            if pass then
              "Expected chain not to have been called " ++ toString expected ++
                " time(s), but all segments were called " ++ toString expected ++ " time(s)"
            else
              "Expected all segments to be called " ++ toString expected ++
                " time(s), but:\n  " ++ String.intercalate "\n  " mismatches }

/-- `toHaveBeenChainCalledExactlyOnce`. -/
def toHaveBeenChainCalledExactlyOnce (states : List (String × PathState))
    (path : List String) : MatcherResult :=
  toHaveBeenChainCalledTimes states path 1

/-- `toHaveBeenChainCalledExactlyOnceWith`: every segment called exactly once
and its sole call deep-equal to the expected arguments. `eqFn` is the host's
`this.equals`. -/
def toHaveBeenChainCalledExactlyOnceWith (eqFn : List Val → List Val → Bool)
    (states : List (String × PathState)) (path : List String)
    (argsPerSegment : List (List Val)) : MatcherResult :=
  let segments := getPathSegments path
  if segments.isEmpty then
    .ok { pass := false, message := "Cannot check chain calls on root mock" }
  else if argsPerSegment.length != segments.length then
    .ok { pass := false,
          message := "Expected " ++ toString segments.length ++
            " argument array(s) (one per segment), but got " ++
            toString argsPerSegment.length }
  else
    let mismatches := (List.range segments.length).filterMap (fun i =>
      let segment := segments.getD i ""
      let expectedArgs := argsPerSegment.getD i []
      match getPathState states segment with
      | none => some (segment ++ ": was never called")
      | some st =>
        if st.mock.calls.isEmpty then some (segment ++ ": was never called")
        else if st.mock.calls.length != 1 then
          some (segment ++ ": expected to be called exactly once, but was called " ++
            toString st.mock.calls.length ++ " time(s)")
        else
          let call := st.mock.calls.getD 0 []
          if !eqFn call expectedArgs then
            some (segment ++ ": expected call with " ++ jsonArgs expectedArgs ++
              ", got " ++ jsonArgs call)
          else none)
    let pass := mismatches.isEmpty
    .ok { pass := pass,
          message :=
            if pass then
              "Expected chain not to have been called exactly once with the specified arguments, but all segments matched"
            else
              "Expected all segments to be called exactly once with the specified arguments, but:\n  " ++
                String.intercalate "\n  " mismatches }

/-- `toHaveBeenChainCalledWith`: some single call index matches the expected
arguments on every segment simultaneously. -/
def toHaveBeenChainCalledWith (eqFn : List Val → List Val → Bool)
    (states : List (String × PathState)) (path : List String)
    (argsPerSegment : List (List Val)) : MatcherResult :=
  let segments := getPathSegments path
  if segments.isEmpty then
    .ok { pass := false, message := "Cannot check chain calls on root mock" }
  else if argsPerSegment.length != segments.length then
    .ok { pass := false,
          message := "Expected " ++ toString segments.length ++
            " argument array(s) (one per segment), but got " ++
            toString argsPerSegment.length }
  else
    let sts := segments.map (getPathState states)
    let callCounts := sts.map (fun s => (s.map (fun st => st.mock.calls.length)).getD 0)
    let minCalls := minList callCounts
    if minCalls == 0 then
      .ok { pass := false,
            message :=
              let uncalled := segments.filter (fun seg => segmentCallCount states seg == 0)
              "Expected chain to have been called with specified arguments, but " ++
                String.intercalate ", " uncalled ++ " was never called" }
    else
      match (List.range minCalls).find? (fun callIdx =>
          (List.range segments.length).all (fun segIdx =>
            let calls := ((sts.getD segIdx none).map (fun st => st.mock.calls)).getD []
            eqFn (calls.getD callIdx []) (argsPerSegment.getD segIdx []))) with
      | some callIdx =>
        .ok { pass := true,
              message := "Expected chain not to have been called with the specified arguments, but call " ++
                toString (callIdx + 1) ++ " matched" }
      | none =>
        .ok { pass := false,
              message := "Expected chain to have been called with " ++
                jsonArgsList argsPerSegment ++ ", but no matching call was found" }

/-- `toHaveBeenNthChainCalledWith`: every segment's `n`-th (1-indexed) call
deep-equals the expected arguments; `n < 1` is a usage failure. -/
def toHaveBeenNthChainCalledWith (eqFn : List Val → List Val → Bool)
    (states : List (String × PathState)) (path : List String) (n : Nat)
    (argsPerSegment : List (List Val)) : MatcherResult :=
  let segments := getPathSegments path
  if segments.isEmpty then
    .ok { pass := false, message := "Cannot check chain calls on root mock" }
  else if n < 1 then
    .ok { pass := false,
          message := "Expected call index to be >= 1, but got " ++ toString n }
  else if argsPerSegment.length != segments.length then
    .ok { pass := false,
          message := "Expected " ++ toString segments.length ++
            " argument array(s) (one per segment), but got " ++
            toString argsPerSegment.length }
  else
    let mismatches := (List.range segments.length).filterMap (fun i =>
      let segment := segments.getD i ""
      let expectedArgs := argsPerSegment.getD i []
      match getPathState states segment with
      | none =>
        some (segment ++ ": expected at least " ++ toString n ++
          " call(s), but got 0")
      | some st =>
        if st.mock.calls.length < n then
          some (segment ++ ": expected at least " ++ toString n ++
            " call(s), but got " ++ toString st.mock.calls.length)
        else
          let nthCall := st.mock.calls.getD (n - 1) []
          if !eqFn nthCall expectedArgs then
            some (segment ++ ": expected call " ++ toString n ++ " with " ++
              jsonArgs expectedArgs ++ ", got " ++ jsonArgs nthCall)
          else none)
    let pass := mismatches.isEmpty
    .ok { pass := pass,
          message :=
            if pass then
              "Expected chain not to have been called " ++ toString n ++
                " time(s) with the specified arguments, but all segments matched"
            else
              "Expected all segments to match call " ++ toString n ++
                " arguments, but:\n  " ++ String.intercalate "\n  " mismatches }

/-- The maximum registry length across the chain's segments (the call index
that `toHaveBeenLastChainCalledWith` aligns to). -/
def maxRegistryLen (states : List (String × PathState)) (path : List String) : Nat :=
  maxList ((getPathSegments path).map (fun seg => segmentCallCount states seg))

/-- `toHaveBeenLastChainCalledWith`: delegate to the nth-matcher at the
maximum registry length across all segments. -/
def toHaveBeenLastChainCalledWith (eqFn : List Val → List Val → Bool)
    (states : List (String × PathState)) (path : List String)
    (argsPerSegment : List (List Val)) : MatcherResult :=
  let segments := getPathSegments path
  if segments.isEmpty then
    .ok { pass := false, message := "Cannot check chain calls on root mock" }
  else
    let lastCallIndex := maxRegistryLen states path
    if lastCallIndex == 0 then
      .ok { pass := false,
            message := "Expected chain to have been called, but no segments were called" }
    else
      toHaveBeenNthChainCalledWith eqFn states path lastCallIndex argsPerSegment

/-! ### Specification-side definitions and auxiliary machinery -/

/-- The await behavior exactly as the specification words it, written
independently of `thenResolve`: walk from the node's own path upward to the
root and stop at the first path state (inclusive of self) with a configured
asynchronous outcome — a pending rejected or resolved value, the one-shot
queue checked before the persistent value, rejection before resolution — and
resolve to `undefined` when no such ancestor exists. -/
def specAwait (states : List (String × PathState)) : List String → SettleOutcome
  | path =>
    let next : SettleOutcome :=
      if h : path = [] then .resolved .undef
      else specAwait states path.dropLast
    match alookup states (pathKey path) with
    | some st =>
      match st.rejectedValueQueue with
      | e :: _ => .rejected e
      | [] =>
        if st.rejectedValue ≠ Val.undef then .rejected st.rejectedValue
        else
          match st.resolvedValueQueue with
          | v :: _ => .resolved v
          | [] =>
            if st.resolvedValue ≠ Val.undef then .resolved st.resolvedValue
            else next
    | none => next
  termination_by path => path.length
  decreasing_by
    simp [List.length_dropLast]
    exact List.length_pos.mpr h

/-- Every externally reachable operation on a live mock other than a full
reset (the specification reserves destruction of path identity to a full
reset). -/
inductive MockOp where
  | access (path : List String) (prop : String)
  | invoke (path : List String) (args : List Val) (thisArg : Val)
  | settle (path : List String)
  | configResolved (path : List String) (v : Val)
  | configResolvedOnce (path : List String) (v : Val)
  | configRejected (path : List String) (v : Val)
  | configRejectedOnce (path : List String) (v : Val)
  | configReturn (path : List String) (v : Val)
  | configReturnOnce (path : List String) (v : Val)
  | configImpl (path : List String) (f : Impl)
  | configImplOnce (path : List String) (f : Impl)
  | nameOp (path : List String) (s : String)
  | clearOp (path : List String)

/-- Execute one operation (a thrown `mockClear` usage error leaves the state
as it was). -/
def runOp (m : MockState) : MockOp → MockState
  | .access path prop => (getChild m path prop).2
  | .invoke path args thisArg => (applyNode m path args thisArg).2
  | .settle path => (thenResolve m path).2
  | .configResolved path v => mockResolvedValue m path v
  | .configResolvedOnce path v => mockResolvedValueOnce m path v
  | .configRejected path v => mockRejectedValue m path v
  | .configRejectedOnce path v => mockRejectedValueOnce m path v
  | .configReturn path v => mockReturnValue m path v
  | .configReturnOnce path v => mockReturnValueOnce m path v
  | .configImpl path f => mockImplementation m path f
  | .configImplOnce path f => mockImplementationOnce m path f
  | .nameOp path s => setMockName m path s
  | .clearOp path =>
    match mockClear m path with
    | .ok r => r.2
    | .error _ => m

/-- Execute a sequence of operations. -/
def runOps (m : MockState) (ops : List MockOp) : MockState := ops.foldl runOp m

/-- Walk a property chain node by node starting from the node at `pre`:
`accessSteps m [] ["a","x","y"]` is the node (and state) produced by
evaluating `root.a.x.y`. -/
def accessSteps (m : MockState) (pre : List String) : List String → Nat × MockState
  | [] => getOrCreateProxy m pre
  | name :: rest => accessSteps (getOrCreateProxy m pre).2 (pre ++ [name]) rest

/-- The node obtained by accessing `path` property by property from the
root. -/
def accessPath (m : MockState) (path : List String) : Nat × MockState :=
  accessSteps m [] path

/-- Evaluate a fluent chain `root.n1().n2()...` : descend one property and
invoke it (with no arguments), repeatedly. -/
def runChainFrom (m : MockState) (pre : List String) : List String → MockState
  | [] => m
  | name :: rest =>
    let m1 := (getChild m pre name).2
    let m2 := (applyNode m1 (pre ++ [name]) [] .undef).2
    runChainFrom m2 (pre ++ [name]) rest

/-- Evaluate the fluent chain named by `names` from the root. -/
def runChain (m : MockState) (names : List String) : MockState :=
  runChainFrom m [] names

/-- The proxy cache of `m'` retains every binding of the proxy cache of `m`
(node identity is preserved). -/
def cacheExtends (m m' : MockState) : Prop :=
  ∀ k pid, alookup m.proxyCache k = some pid → alookup m'.proxyCache k = some pid

/-- A state carries no asynchronous configuration at all. -/
def asyncFree (st : PathState) : Prop :=
  st.resolvedValue = .undef ∧ st.resolvedValueQueue = [] ∧
  st.rejectedValue = .undef ∧ st.rejectedValueQueue = []

/-- Two states carry identical asynchronous configuration. -/
def asyncEq (s t : PathState) : Prop :=
  s.resolvedValue = t.resolvedValue ∧ s.resolvedValueQueue = t.resolvedValueQueue ∧
  s.rejectedValue = t.rejectedValue ∧ s.rejectedValueQueue = t.rejectedValueQueue

/-- `m'` refines `m` on asynchronous configuration: every key either keeps
its asynchronous configuration unchanged, or is a newly created (hence
unconfigured) state. -/
def asyncPreserved (m m' : MockState) : Prop :=
  ∀ k, (∀ st, alookup m.pathStates k = some st →
          ∃ st', alookup m'.pathStates k = some st' ∧ asyncEq st' st) ∧
       (alookup m.pathStates k = none →
          alookup m'.pathStates k = none ∨
          ∃ st', alookup m'.pathStates k = some st' ∧ asyncFree st')

/-- The calls recorded for the `j`-th (0-based) segment of a chain. -/
def segCalls (states : List (String × PathState)) (path : List String) (j : Nat) :
    List (List Val) :=
  ((alookup states (pathKey (path.take (j + 1)))).map (fun st => st.mock.calls)).getD []

/-- Plain structural deep-equality, the reference instantiation of the
host's `equals`. -/
def stdEq : List Val → List Val → Bool := fun a b => a == b

/-- The per-state effect of `mockClear()` on the whole map: every state keeps
its configuration and loses its registry. -/
def clearRegistries (states : List (String × PathState)) : List (String × PathState) :=
  states.map (fun p => (p.1, { p.2 with mock := {} }))

/-- The settlement produced from one path state: rejection queue, persistent
rejection, resolution queue, persistent resolution, else `undefined`. -/
def settleOf (st : PathState) : SettleOutcome :=
  match st.rejectedValueQueue with
  | e :: _ => .rejected e
  | [] =>
    if st.rejectedValue ≠ Val.undef then .rejected st.rejectedValue
    else
      match st.resolvedValueQueue with
      | v :: _ => .resolved v
      | [] =>
        if st.resolvedValue ≠ Val.undef then .resolved st.resolvedValue
        else (.resolved .undef)

/-- A fully unconfigured state: no synchronous behavior and no asynchronous
outcome (its registry is unconstrained). -/
def unconfigured (st : PathState) : Prop :=
  st.resolvedValue = .undef ∧ st.resolvedValueQueue = [] ∧
  st.rejectedValue = .undef ∧ st.rejectedValueQueue = [] ∧
  st.implementationOnce = [] ∧ st.implementation = none ∧
  st.returnValueQueue = [] ∧ (st.returnValue = .undef)

/-- The state shape reached by running a fluent chain on a fresh mock whose
root alone carries `mockResolvedValue v`: the root state holds exactly that
persistent resolved value and nothing else, and every other state is fully
unconfigured. -/
def rootOnlyAsync (v : Val) (m : MockState) : Prop :=
  (∃ st0, alookup m.pathStates "" = some st0 ∧
    st0.resolvedValue = v ∧ st0.resolvedValueQueue = [] ∧
    st0.rejectedValue = .undef ∧ st0.rejectedValueQueue = [] ∧
    st0.implementationOnce = [] ∧ st0.implementation = none ∧
    st0.returnValueQueue = [] ∧ st0.returnValue = .undef) ∧
  (∀ k st, alookup m.pathStates k = some st → k ≠ "" → unconfigured st)

/-! ### Association-list lemmas -/

theorem alookup_aset_self {β : Type} (l : List (String × β)) (k : String) (v : β) :
    alookup (aset l k v) k = some v := by
  induction l with
  | nil => simp [aset, alookup]
  | cons p rest ih =>
    by_cases h : p.1 = k
    · simp [aset, h, alookup]
    · simp [aset, h, alookup, ih]

theorem alookup_aset_ne {β : Type} (l : List (String × β)) (k k' : String) (v : β)
    (h : k' ≠ k) : alookup (aset l k v) k' = alookup l k' := by
  induction l with
  | nil => simp [aset, alookup, Ne.symm h]
  | cons p rest ih =>
    by_cases hp : p.1 = k
    · rw [show aset (p :: rest) k v = (k, v) :: rest by simp [aset, hp]]
      simp [alookup, Ne.symm h, hp]
    · rw [show aset (p :: rest) k v = p :: aset rest k v by simp [aset, hp]]
      by_cases hp' : p.1 = k'
      · simp [alookup, hp']
      · simp [alookup, hp', ih]

theorem alookup_append_some {β : Type} {l : List (String × β)} {k : String} {v : β}
    (l' : List (String × β)) (h : alookup l k = some v) :
    alookup (l ++ l') k = some v := by
  induction l with
  | nil => simp [alookup] at h
  | cons p rest ih =>
    by_cases hp : p.1 = k
    · simp [alookup, hp] at h
      simp [alookup, hp, h]
    · simp [alookup, hp] at h
      simpa [alookup, hp] using ih h

theorem alookup_append_none {β : Type} {l : List (String × β)} {k : String}
    (l' : List (String × β)) (h : alookup l k = none) :
    alookup (l ++ l') k = alookup l' k := by
  induction l with
  | nil => simp
  | cons p rest ih =>
    by_cases hp : p.1 = k
    · simp [alookup, hp] at h
    · simp [alookup, hp] at h
      simpa [alookup, hp] using ih h

theorem alookup_map_values {β γ : Type} (l : List (String × β)) (g : β → γ)
    (k : String) :
    alookup (l.map (fun p => (p.1, g p.2))) k = (alookup l k).map g := by
  induction l with
  | nil => simp [alookup]
  | cons p rest ih =>
    by_cases hp : p.1 = k
    · simp [alookup, hp]
    · simp [alookup, hp, ih]

theorem alookup_singleton_self {β : Type} (k : String) (v : β) :
    alookup [(k, v)] k = some v := by simp [alookup]

/-! ### `minList` lemmas -/

theorem minList_mem {l : List Nat} (h : l ≠ []) : minList l ∈ l := by
  induction l with
  | nil => exact absurd rfl h
  | cons n rest ih =>
    cases rest with
    | nil => simp [minList]
    | cons b t =>
      rw [show minList (n :: b :: t) = min n (minList (b :: t)) from rfl]
      rcases min_choice n (minList (b :: t)) with hc | hc <;> rw [hc]
      · exact List.mem_cons_self _ _
      · exact List.mem_cons_of_mem _ (ih (by simp))

theorem minList_le {l : List Nat} {x : Nat} (h : x ∈ l) : minList l ≤ x := by
  induction l with
  | nil => simp at h
  | cons n rest ih =>
    cases rest with
    | nil =>
      simp at h
      simp [minList, h]
    | cons b t =>
      rw [show minList (n :: b :: t) = min n (minList (b :: t)) from rfl]
      rcases List.mem_cons.mp h with rfl | hmem
      · exact min_le_left _ _
      · exact le_trans (min_le_right _ _) (ih hmem)

theorem lt_minList_iff {l : List Nat} (h : l ≠ []) (i : Nat) :
    i < minList l ↔ ∀ x ∈ l, i < x := by
  constructor
  · intro hi x hx
    exact lt_of_lt_of_le hi (minList_le hx)
  · intro hall
    exact hall _ (minList_mem h)

/-! ### `ancestors` and walk lemmas -/

theorem ancestors_nil : ancestors ([] : List String) = [[]] := rfl

theorem ancestors_cons (path : List String) (h : path ≠ []) :
    ancestors path = path :: ancestors path.dropLast := by
  unfold ancestors
  obtain ⟨n, hn⟩ : ∃ n, path.length = n + 1 := by
    rcases Nat.exists_eq_succ_of_ne_zero
      (Nat.pos_iff_ne_zero.mp (List.length_pos.mpr h)) with ⟨n, hn⟩
    exact ⟨n, hn⟩
  rw [hn, List.length_dropLast, hn]
  simp only [Nat.add_sub_cancel]
  rw [List.range_succ, List.reverse_append, List.reverse_singleton,
    List.singleton_append, List.map_cons]
  have h1 : path.take (n + 1) = path := by
    rw [← hn]; exact List.take_length path
  rw [h1]
  congr 1
  apply List.map_congr_left
  intro i hi
  have hile : i ≤ n := by
    have := List.mem_range.mp (List.mem_reverse.mp hi)
    omega
  rw [List.dropLast_eq_take, hn]
  simp only [Nat.add_sub_cancel]
  rw [List.take_take, Nat.min_eq_left hile]

theorem pathKey_nil : pathKey [] = "" := rfl

theorem findConfiguredKey_found {states : List (String × PathState)}
    {pred : PathState → Bool} {path : List String} {st : PathState}
    (h1 : alookup states (pathKey path) = some st) (h2 : pred st = true) :
    findConfiguredKey states pred path = some (pathKey path) := by
  unfold findConfiguredKey
  rcases eq_or_ne path [] with rfl | hne
  · rw [ancestors_nil]
    simp [List.findSome?, h1, h2]
  · rw [ancestors_cons path hne]
    simp [List.findSome?, h1, h2]

theorem findConfiguredKey_skip_some {states : List (String × PathState)}
    {pred : PathState → Bool} {path : List String} {st : PathState}
    (h1 : alookup states (pathKey path) = some st) (h2 : pred st = false)
    (hne : path ≠ []) :
    findConfiguredKey states pred path = findConfiguredKey states pred path.dropLast := by
  unfold findConfiguredKey
  rw [ancestors_cons path hne]
  simp [List.findSome?, h1, h2]

theorem findConfiguredKey_skip_none {states : List (String × PathState)}
    {pred : PathState → Bool} {path : List String}
    (h1 : alookup states (pathKey path) = none) (hne : path ≠ []) :
    findConfiguredKey states pred path = findConfiguredKey states pred path.dropLast := by
  unfold findConfiguredKey
  rw [ancestors_cons path hne]
  simp [List.findSome?, h1]

theorem findConfiguredKey_nil_some {states : List (String × PathState)}
    {pred : PathState → Bool} {st : PathState}
    (h1 : alookup states "" = some st) (h2 : pred st = false) :
    findConfiguredKey states pred [] = none := by
  unfold findConfiguredKey
  rw [ancestors_nil]
  simp [List.findSome?, pathKey_nil, h1, h2]

theorem findConfiguredKey_nil_none {states : List (String × PathState)}
    {pred : PathState → Bool} (h1 : alookup states "" = none) :
    findConfiguredKey states pred [] = none := by
  unfold findConfiguredKey
  rw [ancestors_nil]
  simp [List.findSome?, pathKey_nil, h1]

/-! ### Projection and cache-extension lemmas -/

@[simp] theorem getOrCreatePathState_proxyCache (m : MockState) (p : List String) :
    ((getOrCreatePathState m p).2).proxyCache = m.proxyCache := by
  unfold getOrCreatePathState
  rcases h : alookup m.pathStates (pathKey p) with _ | st <;> simp [h]

@[simp] theorem getOrCreatePathState_nextProxyId (m : MockState) (p : List String) :
    ((getOrCreatePathState m p).2).nextProxyId = m.nextProxyId := by
  unfold getOrCreatePathState
  rcases h : alookup m.pathStates (pathKey p) with _ | st <;> simp [h]

@[simp] theorem updatePathState_proxyCache (m : MockState) (p : List String)
    (f : PathState → PathState) :
    (updatePathState m p f).proxyCache = m.proxyCache := by
  unfold updatePathState
  simp

@[simp] theorem setStateAt_proxyCache (m : MockState) (k : String) (st : PathState) :
    (setStateAt m k st).proxyCache = m.proxyCache := rfl

@[simp] theorem pushResult_proxyCache (m : MockState) (k : String) (r : ResultDesc)
    (s : SettledDesc) : (pushResult m k r s).proxyCache = m.proxyCache := by
  unfold pushResult
  rcases h : alookup m.pathStates k with _ | st <;> simp [h]

@[simp] theorem setLastResults_proxyCache (m : MockState) (k : String) (r : ResultDesc)
    (s : SettledDesc) : (setLastResults m k r s).proxyCache = m.proxyCache := by
  unfold setLastResults
  rcases h : alookup m.pathStates k with _ | st <;> simp [h]

@[simp] theorem recordCall_proxyCache (m : MockState) (p : List String)
    (args : List Val) (thisArg : Val) :
    (recordCall m p args thisArg).proxyCache = m.proxyCache := by
  unfold recordCall
  simp

@[simp] theorem runImpl_proxyCache (m : MockState) (k : String) (f : Impl)
    (args : List Val) : ((runImpl m k f args).2).proxyCache = m.proxyCache := by
  unfold runImpl
  rcases h : f args with e | v <;> simp [h]

@[simp] theorem thenResolve_proxyCache (m : MockState) (p : List String) :
    ((thenResolve m p).2).proxyCache = m.proxyCache := by
  unfold thenResolve
  dsimp only
  split
  · simp
  · split
    · simp
    · split
      · simp
      · simp

theorem cacheExtends_refl (m : MockState) : cacheExtends m m := fun _ _ h => h

theorem cacheExtends_trans {a b c : MockState} (h1 : cacheExtends a b)
    (h2 : cacheExtends b c) : cacheExtends a c :=
  fun k pid h => h2 k pid (h1 k pid h)

theorem cacheExtends_of_eq {a b : MockState} (h : b.proxyCache = a.proxyCache) :
    cacheExtends a b := by
  intro k pid hk
  rw [h]
  exact hk

theorem getOrCreateProxy_cacheExtends (m : MockState) (p : List String) :
    cacheExtends m (getOrCreateProxy m p).2 := by
  unfold getOrCreateProxy
  dsimp only
  rcases h : alookup m.proxyCache (pathKey p) with _ | pid
  · intro k pid' hk
    simp only [h, getOrCreatePathState_proxyCache]
    exact alookup_append_some _ hk
  · simp only [h]
    exact cacheExtends_refl m

theorem getOrCreateProxy_of_cached {m : MockState} {p : List String} {pid : Nat}
    (h : alookup m.proxyCache (pathKey p) = some pid) :
    getOrCreateProxy m p = (pid, m) := by
  unfold getOrCreateProxy
  dsimp only
  rw [h]

theorem getOrCreateProxy_self_cached (m : MockState) (p : List String) :
    alookup ((getOrCreateProxy m p).2).proxyCache (pathKey p) =
      some (getOrCreateProxy m p).1 := by
  unfold getOrCreateProxy
  dsimp only
  rcases h : alookup m.proxyCache (pathKey p) with _ | pid
  · simp only [h, getOrCreatePathState_proxyCache]
    rw [alookup_append_none _ h, alookup_singleton_self]
  · simpa [h] using h

theorem applyOutcomeFrom_cacheExtends (m1 : MockState) (path : List String)
    (args : List Val) : cacheExtends m1 (applyOutcomeFrom m1 path args).2 := by
  unfold applyOutcomeFrom
  dsimp only
  split
  · apply cacheExtends_of_eq
    simp
  · split
    · apply cacheExtends_of_eq
      simp
    · split
      · apply cacheExtends_of_eq
        simp
      · split
        · apply cacheExtends_of_eq
          simp
        · apply cacheExtends_trans (b := pushResult m1 (pathKey path) .incomplete .incomplete)
          · exact cacheExtends_of_eq (by simp)
          · exact getOrCreateProxy_cacheExtends _ _

theorem applyNode_cacheExtends (m : MockState) (path : List String) (args : List Val)
    (thisArg : Val) : cacheExtends m (applyNode m path args thisArg).2 := by
  unfold applyNode
  exact cacheExtends_trans (cacheExtends_of_eq (by simp))
    (applyOutcomeFrom_cacheExtends _ _ _)

theorem mockClear_run_cacheExtends (m : MockState) (path : List String) :
    cacheExtends m (match mockClear m path with | .ok r => r.2 | .error _ => m) := by
  unfold mockClear
  dsimp only
  by_cases h : path.length > 0
  · simp [h]
    exact cacheExtends_refl m
  · simp only [if_neg h]
    exact fun k pid hk => getOrCreateProxy_cacheExtends _ path k pid hk

theorem runOp_cacheExtends (m : MockState) (op : MockOp) :
    cacheExtends m (runOp m op) := by
  cases op with
  | access path prop => exact getOrCreateProxy_cacheExtends _ _
  | invoke path args thisArg => exact applyNode_cacheExtends _ _ _ _
  | settle path => exact cacheExtends_of_eq (by simp [runOp])
  | configResolved path v => exact cacheExtends_of_eq (by simp [runOp, mockResolvedValue])
  | configResolvedOnce path v => exact cacheExtends_of_eq (by simp [runOp, mockResolvedValueOnce])
  | configRejected path v => exact cacheExtends_of_eq (by simp [runOp, mockRejectedValue])
  | configRejectedOnce path v => exact cacheExtends_of_eq (by simp [runOp, mockRejectedValueOnce])
  | configReturn path v => exact cacheExtends_of_eq (by simp [runOp, mockReturnValue])
  | configReturnOnce path v => exact cacheExtends_of_eq (by simp [runOp, mockReturnValueOnce])
  | configImpl path f => exact cacheExtends_of_eq (by simp [runOp, mockImplementation])
  | configImplOnce path f => exact cacheExtends_of_eq (by simp [runOp, mockImplementationOnce])
  | nameOp path s => exact cacheExtends_of_eq (by simp [runOp, setMockName])
  | clearOp path => exact mockClear_run_cacheExtends m path

theorem runOps_cacheExtends (m : MockState) (ops : List MockOp) :
    cacheExtends m (runOps m ops) := by
  induction ops generalizing m with
  | nil => exact cacheExtends_refl m
  | cons op rest ih =>
    exact cacheExtends_trans (runOp_cacheExtends m op) (ih (runOp m op))

theorem accessSteps_cached {m : MockState} {pre rest : List String} {pid : Nat}
    (h : alookup m.proxyCache (pathKey (pre ++ rest)) = some pid) :
    (accessSteps m pre rest).1 = pid := by
  induction rest generalizing m pre with
  | nil =>
    rw [List.append_nil] at h
    simp [accessSteps, getOrCreateProxy_of_cached h]
  | cons name rest ih =>
    have hassoc : pre ++ name :: rest = (pre ++ [name]) ++ rest := by
      simp
    rw [hassoc] at h
    have h2 := getOrCreateProxy_cacheExtends m pre _ _ h
    exact ih h2

theorem accessSteps_caches_self (m : MockState) (pre rest : List String) :
    alookup ((accessSteps m pre rest).2).proxyCache (pathKey (pre ++ rest)) =
      some (accessSteps m pre rest).1 := by
  induction rest generalizing m pre with
  | nil =>
    rw [List.append_nil]
    exact getOrCreateProxy_self_cached m pre
  | cons name rest ih =>
    have hassoc : pre ++ name :: rest = (pre ++ [name]) ++ rest := by
      simp
    rw [hassoc]
    exact ih _ _

theorem getPathSegments_isEmpty_false {path : List String} (h : path ≠ []) :
    (getPathSegments path).isEmpty = false := by
  unfold getPathSegments
  rw [if_neg (by simp [List.isEmpty_iff, h])]
  simp [List.isEmpty_iff, List.range_eq_nil, h]

/-! ### Lookup lemmas for the state-updating operations -/

theorem alookup_append_single_ne {β : Type} (l : List (String × β)) {k k' : String}
    (v : β) (h : k' ≠ k) : alookup (l ++ [(k, v)]) k' = alookup l k' := by
  rcases hl : alookup l k' with _ | w
  · rw [alookup_append_none _ hl]
    simp [alookup, Ne.symm h]
  · rw [alookup_append_some _ hl]

theorem updatePathState_lookup_self {m : MockState} {p : List String} {st : PathState}
    (f : PathState → PathState) (h : alookup m.pathStates (pathKey p) = some st) :
    alookup (updatePathState m p f).pathStates (pathKey p) = some (f st) := by
  unfold updatePathState getOrCreatePathState
  dsimp only
  rw [h]
  dsimp only
  exact alookup_aset_self _ _ _

theorem updatePathState_lookup_self_none {m : MockState} {p : List String}
    (f : PathState → PathState) (h : alookup m.pathStates (pathKey p) = none) :
    alookup (updatePathState m p f).pathStates (pathKey p) = some (f {}) := by
  unfold updatePathState getOrCreatePathState
  dsimp only
  rw [h]
  dsimp only
  exact alookup_aset_self _ _ _

theorem updatePathState_lookup_ne {m : MockState} {p : List String} {k : String}
    (f : PathState → PathState) (h : k ≠ pathKey p) :
    alookup (updatePathState m p f).pathStates k = alookup m.pathStates k := by
  unfold updatePathState getOrCreatePathState
  dsimp only
  rcases hl : alookup m.pathStates (pathKey p) with _ | st
  · dsimp only
    rw [alookup_aset_ne _ _ _ _ h, alookup_append_single_ne _ _ h]
  · dsimp only
    rw [alookup_aset_ne _ _ _ _ h]

theorem recordCall_lookup_self {m : MockState} {p : List String} {st : PathState}
    (args : List Val) (thisArg : Val) (h : alookup m.pathStates (pathKey p) = some st) :
    alookup (recordCall m p args thisArg).pathStates (pathKey p) =
      some { st with mock := { st.mock with
        calls := st.mock.calls ++ [args],
        invocationCallOrder := st.mock.invocationCallOrder ++ [m.invocationCallCounter],
        contexts := st.mock.contexts ++ [thisArg] } } := by
  unfold recordCall
  dsimp only
  exact updatePathState_lookup_self _ h

theorem recordCall_lookup_ne {m : MockState} {p : List String} {k : String}
    (args : List Val) (thisArg : Val) (h : k ≠ pathKey p) :
    alookup (recordCall m p args thisArg).pathStates k = alookup m.pathStates k := by
  unfold recordCall
  dsimp only
  exact updatePathState_lookup_ne _ h

theorem pushResult_lookup_self {m : MockState} {k : String} {st : PathState}
    (r : ResultDesc) (s : SettledDesc) (h : alookup m.pathStates k = some st) :
    alookup (pushResult m k r s).pathStates k =
      some { st with mock := { st.mock with
        results := st.mock.results ++ [r],
        settledResults := st.mock.settledResults ++ [s] } } := by
  unfold pushResult
  rw [h]
  dsimp only [setStateAt]
  exact alookup_aset_self _ _ _

/-! ### Behavior-resolution lemmas for `apply` -/

theorem resolveSyncKey_bare {states : List (String × PathState)} {path : List String}
    {name : String} {mst : PathState} (hgl : path.getLast? = some name)
    (hlk : alookup states name = some mst) (hc : hasConfiguredValue mst = true) :
    resolveSyncKey states path = some name := by
  unfold resolveSyncKey
  rw [hgl]
  dsimp only
  rw [hlk]
  dsimp only
  rw [hc]
  simp

theorem resolveSyncKey_no_bare {states : List (String × PathState)}
    {path : List String} {name : String} (hgl : path.getLast? = some name)
    (hfb : alookup states name = none ∨
      ∃ mst, alookup states name = some mst ∧ hasConfiguredValue mst = false) :
    resolveSyncKey states path = findSyncKey states path := by
  unfold resolveSyncKey
  rw [hgl]
  dsimp only
  rcases hfb with hnone | ⟨mst, hsome, hfalse⟩
  · rw [hnone]
  · rw [hsome]
    dsimp only
    rw [hfalse]
    simp

theorem resolveSyncKey_nil (states : List (String × PathState)) :
    resolveSyncKey states [] = findSyncKey states [] := by
  unfold resolveSyncKey
  rfl

theorem resolveSyncKey_none_findSyncKey {states : List (String × PathState)}
    {path : List String} (h : resolveSyncKey states path = none) :
    findSyncKey states path = none := by
  unfold resolveSyncKey at h
  rcases hgl : path.getLast? with _ | name
  · rw [hgl] at h
    exact h
  · rw [hgl] at h
    dsimp only at h
    rcases hlk : alookup states name with _ | mst
    · rw [hlk] at h
      exact h
    · rw [hlk] at h
      dsimp only at h
      by_cases hc : hasConfiguredValue mst = true
      · rw [hc] at h
        simp at h
      · rw [Bool.not_eq_true] at hc
        rw [hc] at h
        simpa using h

theorem applyOutcomeFrom_shift {m1 : MockState} {path : List String} {K : String}
    {stU : PathState} (q : Val) (rest : List Val)
    (hres : resolveSyncKey m1.pathStates path = some K)
    (hlook : alookup m1.pathStates K = some stU)
    (h1 : stU.implementationOnce = []) (h2 : stU.implementation = none)
    (hq : stU.returnValueQueue = q :: rest) (args : List Val) :
    applyOutcomeFrom m1 path args =
      (.value q,
       pushResult (setStateAt m1 K { stU with returnValueQueue := rest })
         (pathKey path) (.ret q) (.fulfilled q)) := by
  unfold applyOutcomeFrom
  dsimp only
  rw [hres]
  dsimp only [Option.getD]
  rw [hlook]
  dsimp only [Option.getD]
  rw [h1, h2, hq]

theorem applyOutcomeFrom_persistent {m1 : MockState} {path : List String} {K : String}
    {stU : PathState} (hres : resolveSyncKey m1.pathStates path = some K)
    (hlook : alookup m1.pathStates K = some stU)
    (h1 : stU.implementationOnce = []) (h2 : stU.implementation = none)
    (hq : stU.returnValueQueue = []) (hr : stU.returnValue ≠ .undef)
    (args : List Val) :
    applyOutcomeFrom m1 path args =
      (.value stU.returnValue,
       pushResult m1 (pathKey path) (.ret stU.returnValue)
         (.fulfilled stU.returnValue)) := by
  unfold applyOutcomeFrom
  dsimp only
  rw [hres]
  dsimp only [Option.getD]
  rw [hlook]
  dsimp only [Option.getD]
  rw [h1, h2, hq]
  rw [if_pos (by simpa using hr)]

theorem hasConfiguredValue_false_fields {st : PathState}
    (h : hasConfiguredValue st = false) :
    st.implementationOnce = [] ∧ st.implementation = none ∧
    st.returnValueQueue = [] ∧ st.returnValue = .undef := by
  unfold hasConfiguredValue at h
  simp only [Bool.or_eq_false_iff] at h
  obtain ⟨⟨⟨ha, hb⟩, hc⟩, hd⟩ := h
  exact ⟨by simpa [List.isEmpty_iff] using ha,
    Option.not_isSome_iff_eq_none.mp (by simp [hb]),
    by simpa [List.isEmpty_iff] using hc,
    by simpa [bne] using hd⟩

theorem applyOutcomeFrom_chainCase {m1 : MockState} {path : List String}
    (hres : resolveSyncKey m1.pathStates path = none) (args : List Val) :
    applyOutcomeFrom m1 path args =
      (.chain (getOrCreateProxy (pushResult m1 (pathKey path) .incomplete .incomplete)
          path).1,
       (getOrCreateProxy (pushResult m1 (pathKey path) .incomplete .incomplete)
          path).2) := by
  have hfind := resolveSyncKey_none_findSyncKey hres
  unfold applyOutcomeFrom
  dsimp only
  rw [hres]
  dsimp only [Option.getD]
  rcases hst : alookup m1.pathStates (pathKey path) with _ | st
  · rfl
  · have hcf : hasConfiguredValue st = false := by
      by_contra hcontra
      rw [Bool.not_eq_false] at hcontra
      have := findConfiguredKey_found hst hcontra
      rw [show findConfiguredKey m1.pathStates hasConfiguredValue path =
        findSyncKey m1.pathStates path from rfl, hfind] at this
      exact Option.noConfusion this
    obtain ⟨hf1, hf2, hf3, hf4⟩ := hasConfiguredValue_false_fields hcf
    rw [hf1, hf2, hf3]
    rw [if_neg (by simp [hf4])]

theorem applyNode_root_shift {m : MockState} {st : PathState} {q : Val}
    {rest : List Val} (h : alookup m.pathStates "" = some st)
    (h1 : st.implementationOnce = []) (h2 : st.implementation = none)
    (hq : st.returnValueQueue = q :: rest) (args : List Val) (th : Val) :
    (applyNode m [] args th).1 = .value q ∧
    ∃ st', alookup ((applyNode m [] args th).2).pathStates "" = some st' ∧
      st'.implementationOnce = [] ∧ st'.implementation = none ∧
      st'.returnValueQueue = rest ∧ st'.returnValue = st.returnValue := by
  have hrec : alookup (recordCall m [] args th).pathStates (pathKey []) =
      some { st with mock := { st.mock with
        calls := st.mock.calls ++ [args],
        invocationCallOrder := st.mock.invocationCallOrder ++ [m.invocationCallCounter],
        contexts := st.mock.contexts ++ [th] } } :=
    recordCall_lookup_self args th h
  have hpred : hasConfiguredValue ({ st with mock := { st.mock with
      calls := st.mock.calls ++ [args],
      invocationCallOrder := st.mock.invocationCallOrder ++ [m.invocationCallCounter],
      contexts := st.mock.contexts ++ [th] } } : PathState) = true := by
    simp [hasConfiguredValue, hq]
  have hres : resolveSyncKey (recordCall m [] args th).pathStates [] =
      some (pathKey []) := by
    rw [resolveSyncKey_nil]
    exact findConfiguredKey_found hrec hpred
  have happ := applyOutcomeFrom_shift q rest hres hrec
    (by simp [h1]) (by simp [h2]) (by simp [hq]) args
  constructor
  · show (applyOutcomeFrom (recordCall m [] args th) [] args).1 = .value q
    rw [happ]
  · show ∃ st', alookup
      ((applyOutcomeFrom (recordCall m [] args th) [] args).2).pathStates "" =
        some st' ∧ _
    rw [happ]
    have hset : alookup (setStateAt (recordCall m [] args th) (pathKey [])
        { { st with mock := { st.mock with
            calls := st.mock.calls ++ [args],
            invocationCallOrder := st.mock.invocationCallOrder ++ [m.invocationCallCounter],
            contexts := st.mock.contexts ++ [th] } } with
          returnValueQueue := rest }).pathStates (pathKey []) =
      some { { st with mock := { st.mock with
          calls := st.mock.calls ++ [args],
          invocationCallOrder := st.mock.invocationCallOrder ++ [m.invocationCallCounter],
          contexts := st.mock.contexts ++ [th] } } with
        returnValueQueue := rest } := alookup_aset_self _ _ _
    have hpush := pushResult_lookup_self (.ret q) (.fulfilled q) hset
    exact ⟨_, hpush, by simp [h1], by simp [h2], by simp, by simp⟩

theorem applyNode_root_persistent {m : MockState} {st : PathState}
    (h : alookup m.pathStates "" = some st)
    (h1 : st.implementationOnce = []) (h2 : st.implementation = none)
    (hq : st.returnValueQueue = []) (hr : st.returnValue ≠ .undef)
    (args : List Val) (th : Val) :
    (applyNode m [] args th).1 = .value st.returnValue ∧
    ∃ st', alookup ((applyNode m [] args th).2).pathStates "" = some st' ∧
      st'.implementationOnce = [] ∧ st'.implementation = none ∧
      st'.returnValueQueue = [] ∧ st'.returnValue = st.returnValue := by
  have hrec : alookup (recordCall m [] args th).pathStates (pathKey []) =
      some { st with mock := { st.mock with
        calls := st.mock.calls ++ [args],
        invocationCallOrder := st.mock.invocationCallOrder ++ [m.invocationCallCounter],
        contexts := st.mock.contexts ++ [th] } } :=
    recordCall_lookup_self args th h
  have hpred : hasConfiguredValue ({ st with mock := { st.mock with
      calls := st.mock.calls ++ [args],
      invocationCallOrder := st.mock.invocationCallOrder ++ [m.invocationCallCounter],
      contexts := st.mock.contexts ++ [th] } } : PathState) = true := by
    simp [hasConfiguredValue, h1, h2, hq, bne]
    exact hr
  have hres : resolveSyncKey (recordCall m [] args th).pathStates [] =
      some (pathKey []) := by
    rw [resolveSyncKey_nil]
    exact findConfiguredKey_found hrec hpred
  have happ := applyOutcomeFrom_persistent hres hrec (by simp [h1]) (by simp [h2])
    (by simp [hq]) (by simpa using hr) args
  constructor
  · show (applyOutcomeFrom (recordCall m [] args th) [] args).1 = _
    rw [happ]
  · show ∃ st', alookup
      ((applyOutcomeFrom (recordCall m [] args th) [] args).2).pathStates "" =
        some st' ∧ _
    rw [happ]
    have hpush := pushResult_lookup_self
      (.ret ({ st with mock := { st.mock with
        calls := st.mock.calls ++ [args],
        invocationCallOrder := st.mock.invocationCallOrder ++ [m.invocationCallCounter],
        contexts := st.mock.contexts ++ [th] } } : PathState).returnValue)
      (.fulfilled ({ st with mock := { st.mock with
        calls := st.mock.calls ++ [args],
        invocationCallOrder := st.mock.invocationCallOrder ++ [m.invocationCallCounter],
        contexts := st.mock.contexts ++ [th] } } : PathState).returnValue) hrec
    exact ⟨_, hpush, by simp [h1], by simp [h2], by simp [hq], by simp⟩

/-! ### Claim theorems -/

/-- C7: for every access path, repeated property access during the mock's
lifetime yields the identical Node: after evaluating `root.<p>` once
(obtaining node id `pid`) and then performing any sequence of operations
(further accesses, invocations, awaits, configuration, clear — everything
except the full reset, which the specification reserves as the one destroyer
of path identity), evaluating `root.<p>` again yields the same node id, so
configuration can happen before or after traversal. -/
theorem claim7_node_identity_stable (m : MockState) (p : List String)
    (ops : List MockOp) :
    (accessPath (runOps (accessPath m p).2 ops) p).1 = (accessPath m p).1 := by
  have h1 := accessSteps_caches_self m [] p
  rw [List.nil_append] at h1
  have h2 := runOps_cacheExtends (accessPath m p).2 ops _ _ h1
  have h3 : alookup (runOps (accessPath m p).2 ops).proxyCache
      (pathKey ([] ++ p)) = some (accessPath m p).1 := by
    rw [List.nil_append]
    exact h2
  exact accessSteps_cached h3

/-- C4 counterexample: invoked on a zero-segment (root) target, the matcher
does not throw — it returns a result with `pass = false` carrying the usage
message, refuting "fails with a synchronously thrown usage error, never by
returning pass=false". -/
theorem claim4_counterexample :
    toHaveBeenChainCalled chainMockInit.pathStates [] =
      Except.ok { pass := false, message := "Cannot check chain calls on root mock" } ∧
    ∀ msg, toHaveBeenChainCalled chainMockInit.pathStates [] ≠ Except.error msg := by
  refine ⟨rfl, ?_⟩
  intro msg h
  rw [show toHaveBeenChainCalled chainMockInit.pathStates ([] : List String) =
    Except.ok { pass := false, message := "Cannot check chain calls on root mock" }
    from rfl] at h
  exact Except.noConfusion h

/-- C4 (amended): every matcher predicate, invoked on a zero-segment (root)
target, fails by returning `pass = false` together with the explicit
usage-error message "Cannot check chain calls on root mock" — it never
throws, and never fails silently. -/
theorem claim4_root_matchers_explicit_failure
    (eqFn : List Val → List Val → Bool) (states : List (String × PathState))
    (argsPerSegment : List (List Val)) (n expected : Nat) :
    toHaveBeenChainCalled states [] =
      .ok { pass := false, message := "Cannot check chain calls on root mock" } ∧
    toHaveBeenChainCalledTimes states [] expected =
      .ok { pass := false, message := "Cannot check chain calls on root mock" } ∧
    toHaveBeenChainCalledExactlyOnce states [] =
      .ok { pass := false, message := "Cannot check chain calls on root mock" } ∧
    toHaveBeenChainCalledExactlyOnceWith eqFn states [] argsPerSegment =
      .ok { pass := false, message := "Cannot check chain calls on root mock" } ∧
    toHaveBeenChainCalledWith eqFn states [] argsPerSegment =
      .ok { pass := false, message := "Cannot check chain calls on root mock" } ∧
    toHaveBeenNthChainCalledWith eqFn states [] n argsPerSegment =
      .ok { pass := false, message := "Cannot check chain calls on root mock" } ∧
    toHaveBeenLastChainCalledWith eqFn states [] argsPerSegment =
      .ok { pass := false, message := "Cannot check chain calls on root mock" } :=
  ⟨rfl, rfl, rfl, rfl, rfl, rfl, rfl⟩

/-- C9: invoking `mockClear()` or `mockReset()` on a node at any non-root
path throws a synchronous fatal usage error naming the path (and, throwing
before any mutation, produces no successor state). -/
theorem claim9_lifecycle_nonroot_throws (m : MockState) (path : List String)
    (h : path ≠ []) :
    mockClear m path = .error ("mockClear() on a nested chain path (\"" ++
        pathKey path ++
        "\") clears only that path and its children, not ancestors. " ++
        "Use chain.mockClear() on the root mock instead.") ∧
    mockReset m path = .error ("mockReset() on a nested chain path (\"" ++
        pathKey path ++
        "\") resets only that path and its children, not ancestors. " ++
        "Use chain.mockReset() on the root mock instead.") := by
  have hl : path.length > 0 := List.length_pos.mpr h
  constructor
  · unfold mockClear
    rw [if_pos hl]
  · unfold mockReset
    rw [if_pos hl]

/-- C9 witness: the non-root path `["a"]` throws on both operations. -/
theorem claim9_witness :
    mockClear chainMockInit ["a"] = .error ("mockClear() on a nested chain path (\"" ++
        pathKey ["a"] ++
        "\") clears only that path and its children, not ancestors. " ++
        "Use chain.mockClear() on the root mock instead.") ∧
    mockReset chainMockInit ["a"] = .error ("mockReset() on a nested chain path (\"" ++
        pathKey ["a"] ++
        "\") resets only that path and its children, not ancestors. " ++
        "Use chain.mockReset() on the root mock instead.") :=
  claim9_lifecycle_nonroot_throws chainMockInit ["a"] (by decide)

/-! ### Await-walk lemmas -/

theorem pathKey_singleton (s : String) : pathKey [s] = s := rfl

theorem hasAsyncValue_false_fields {st : PathState} (h : hasAsyncValue st = false) :
    st.rejectedValueQueue = [] ∧ st.rejectedValue = .undef ∧
    st.resolvedValueQueue = [] ∧ st.resolvedValue = .undef := by
  unfold hasAsyncValue at h
  simp only [Bool.or_eq_false_iff] at h
  obtain ⟨⟨⟨ha, hb⟩, hc⟩, hd⟩ := h
  exact ⟨by simpa [List.isEmpty_iff] using ha, by simpa [bne] using hb,
    by simpa [List.isEmpty_iff] using hc, by simpa [bne] using hd⟩

theorem alookup_append_single_cases {β : Type} {l : List (String × β)}
    {k0 k : String} {v0 st : β} (h : alookup (l ++ [(k0, v0)]) k = some st) :
    alookup l k = some st ∨ (alookup l k = none ∧ k = k0 ∧ st = v0) := by
  rcases hl : alookup l k with _ | w
  · rw [alookup_append_none _ hl] at h
    by_cases he : k0 = k
    · right
      refine ⟨rfl, he.symm, ?_⟩
      rw [show alookup [(k0, v0)] k = some v0 by simp [alookup, he]] at h
      exact (Option.some_injective _ h).symm
    · rw [show alookup [(k0, v0)] k = none by simp [alookup, he]] at h
      exact Option.noConfusion h
  · rw [alookup_append_some _ hl] at h
    exact Or.inl h

theorem alookup_aset_cases {β : Type} {l : List (String × β)} {k0 k : String}
    {w st : β} (h : alookup (aset l k0 w) k = some st) :
    (k = k0 ∧ st = w) ∨ (k ≠ k0 ∧ alookup l k = some st) := by
  by_cases he : k = k0
  · subst he
    rw [alookup_aset_self] at h
    exact Or.inl ⟨rfl, (Option.some_injective _ h).symm⟩
  · rw [alookup_aset_ne _ _ _ _ he] at h
    exact Or.inr ⟨he, h⟩

theorem findConfiguredKey_some_spec {states : List (String × PathState)}
    {pred : PathState → Bool} {path : List String} {K : String}
    (h : findConfiguredKey states pred path = some K) :
    ∃ st, alookup states K = some st ∧ pred st = true := by
  unfold findConfiguredKey at h
  obtain ⟨p, _hmem, hp⟩ := List.exists_of_findSome?_eq_some h
  rcases hlk : alookup states (pathKey p) with _ | st
  · rw [hlk] at hp
    simp at hp
  · rw [hlk] at hp
    have hp2 : (if pred st = true then some (pathKey p) else none) = some K := hp
    by_cases hc : pred st = true
    · rw [if_pos hc] at hp2
      have hK := Option.some_injective _ hp2
      exact ⟨st, by rw [← hK]; exact hlk, hc⟩
    · rw [if_neg hc] at hp2
      exact Option.noConfusion hp2

theorem findConfiguredKey_none_of_all {states : List (String × PathState)}
    {pred : PathState → Bool} (path : List String)
    (h : ∀ (p : List String) (st : PathState),
      alookup states (pathKey p) = some st → pred st = false) :
    findConfiguredKey states pred path = none := by
  unfold findConfiguredKey
  rw [List.findSome?_eq_none]
  intro p _hmem
  rcases hlk : alookup states (pathKey p) with _ | st
  · simp
  · simp [h p st hlk]

theorem specAwait_eq (states : List (String × PathState)) (path : List String) :
    specAwait states path =
      match alookup states (pathKey path) with
      | some st =>
        match st.rejectedValueQueue with
        | e :: _ => SettleOutcome.rejected e
        | [] =>
          if st.rejectedValue ≠ Val.undef then .rejected st.rejectedValue
          else
            match st.resolvedValueQueue with
            | v :: _ => .resolved v
            | [] =>
              if st.resolvedValue ≠ Val.undef then .resolved st.resolvedValue
              else
                (if path = [] then .resolved .undef
                 else specAwait states path.dropLast)
      | none =>
        (if path = [] then .resolved .undef
         else specAwait states path.dropLast) := by
  rw [specAwait]
  rw [dite_eq_ite]

theorem specAwait_found {states : List (String × PathState)} {path : List String}
    {st : PathState} (hlk : alookup states (pathKey path) = some st)
    (ha : hasAsyncValue st = true) : specAwait states path = settleOf st := by
  rw [specAwait_eq, hlk]
  unfold settleOf
  rcases hq : st.rejectedValueQueue with _ | ⟨e, t⟩
  · simp only [hq]
    by_cases hr : st.rejectedValue = Val.undef
    · rcases hq2 : st.resolvedValueQueue with _ | ⟨w, t2⟩
      · by_cases hv : st.resolvedValue = Val.undef
        · exfalso
          have hfalse : hasAsyncValue st = false := by
            simp [hasAsyncValue, hq, hq2, bne, hr, hv]
          rw [hfalse] at ha
          exact Bool.noConfusion ha
        · simp [hq2, hr, hv]
      · simp [hq2, hr]
    · simp [hr]
  · simp only [hq]

theorem specAwait_skip {states : List (String × PathState)} {path : List String}
    (h : ∀ st, alookup states (pathKey path) = some st → hasAsyncValue st = false)
    (hne : path ≠ []) :
    specAwait states path = specAwait states path.dropLast := by
  rw [specAwait_eq]
  rcases hlk : alookup states (pathKey path) with _ | st
  · rw [if_neg hne]
  · obtain ⟨f1, f2, f3, f4⟩ := hasAsyncValue_false_fields (h st hlk)
    simp [f1, f2, f3, f4, hne]

theorem specAwait_nil_unconfigured {states : List (String × PathState)}
    (h : ∀ st, alookup states "" = some st → hasAsyncValue st = false) :
    specAwait states [] = .resolved .undef := by
  rw [specAwait_eq]
  rcases hlk : alookup states (pathKey []) with _ | st
  · simp
  · obtain ⟨f1, f2, f3, f4⟩ := hasAsyncValue_false_fields (h st hlk)
    simp [f1, f2, f3, f4]

theorem specAwait_of_findAsyncKey (states : List (String × PathState))
    (path : List String) :
    specAwait states path =
      match findAsyncKey states path with
      | some K => settleOf ((alookup states K).getD {})
      | none => .resolved .undef := by
  suffices H : ∀ (n : Nat) (p : List String), p.length = n →
      specAwait states p =
        match findAsyncKey states p with
        | some K => settleOf ((alookup states K).getD {})
        | none => .resolved .undef by
    exact H path.length path rfl
  intro n
  induction n using Nat.strong_induction_on with
  | _ n ih =>
    intro p hlen
    by_cases hpe : p = []
    · subst hpe
      rcases hlk : alookup states (pathKey []) with _ | st
      · unfold findAsyncKey
        rw [findConfiguredKey_nil_none hlk]
        exact specAwait_nil_unconfigured (by
          intro st2 h2
          rw [show alookup states "" = none from hlk] at h2
          exact Option.noConfusion h2)
      · by_cases ha : hasAsyncValue st = true
        · unfold findAsyncKey
          rw [findConfiguredKey_found hlk ha]
          dsimp only
          rw [show alookup states (pathKey []) = some st from hlk]
          exact specAwait_found hlk ha
        · have haf : hasAsyncValue st = false := by simpa using ha
          unfold findAsyncKey
          rw [findConfiguredKey_nil_some hlk haf]
          exact specAwait_nil_unconfigured (by
            intro st2 h2
            rw [show alookup states "" = some st from hlk] at h2
            rw [← Option.some_injective _ h2]
            exact haf)
    · have hrec := ih p.dropLast.length (by
        rw [List.length_dropLast]
        have : 0 < p.length := List.length_pos.mpr hpe
        omega) p.dropLast rfl
      rcases hlk : alookup states (pathKey p) with _ | st
      · unfold findAsyncKey
        rw [findConfiguredKey_skip_none hlk hpe]
        unfold findAsyncKey at hrec
        rw [← hrec]
        exact specAwait_skip (by
          intro st2 h2
          rw [hlk] at h2
          exact Option.noConfusion h2) hpe
      · by_cases ha : hasAsyncValue st = true
        · unfold findAsyncKey
          rw [findConfiguredKey_found hlk ha]
          dsimp only
          rw [hlk]
          exact specAwait_found hlk ha
        · have haf : hasAsyncValue st = false := by simpa using ha
          unfold findAsyncKey
          rw [findConfiguredKey_skip_some hlk haf hpe]
          unfold findAsyncKey at hrec
          rw [← hrec]
          exact specAwait_skip (by
            intro st2 h2
            rw [hlk] at h2
            rw [← Option.some_injective _ h2]
            exact haf) hpe

theorem thenResolve_fst (m : MockState) (path : List String) :
    (thenResolve m path).1 =
      specAwait ((getOrCreatePathState m path).2).pathStates path := by
  unfold thenResolve
  dsimp only
  rw [specAwait_of_findAsyncKey]
  rcases hF : findAsyncKey ((getOrCreatePathState m path).2).pathStates path
    with _ | K
  · dsimp only [Option.getD]
    rcases hlk : alookup ((getOrCreatePathState m path).2).pathStates (pathKey path)
      with _ | st
    · rfl
    · have haf : hasAsyncValue st = false := by
        by_contra hcontra
        rw [Bool.not_eq_false] at hcontra
        have hfound := findConfiguredKey_found hlk hcontra
        rw [show findConfiguredKey ((getOrCreatePathState m path).2).pathStates
          hasAsyncValue path = findAsyncKey ((getOrCreatePathState m path).2).pathStates
          path from rfl, hF] at hfound
        exact Option.noConfusion hfound
      obtain ⟨f1, f2, f3, f4⟩ := hasAsyncValue_false_fields haf
      simp [f1, f2, f3, f4, bne]
  · obtain ⟨stU, hlkU, haU⟩ := findConfiguredKey_some_spec hF
    dsimp only [Option.getD]
    rw [hlkU]
    dsimp only [Option.getD]
    unfold settleOf
    rcases hq : stU.rejectedValueQueue with _ | ⟨e, t⟩
    · simp only [hq]
      by_cases hr : stU.rejectedValue = Val.undef
      · rcases hq2 : stU.resolvedValueQueue with _ | ⟨w, t2⟩
        · by_cases hv : stU.resolvedValue = Val.undef
          · simp [hq2, hr, hv, bne]
          · simp [hq2, hr, hv, bne]
        · simp [hq2, hr, bne]
      · simp [hr, bne]
    · simp only [hq]

theorem specAwait_append_fresh {states : List (String × PathState)} {k0 : String}
    (h : alookup states k0 = none) :
    ∀ p, specAwait (states ++ [(k0, ({} : PathState))]) p = specAwait states p := by
  suffices H : ∀ (n : Nat) (p : List String), p.length = n →
      specAwait (states ++ [(k0, ({} : PathState))]) p = specAwait states p by
    exact fun p => H p.length p rfl
  intro n
  induction n using Nat.strong_induction_on with
  | _ n ih =>
    intro p hlen
    have hrec : p ≠ [] →
        specAwait (states ++ [(k0, ({} : PathState))]) p.dropLast =
          specAwait states p.dropLast := by
      intro hpe
      exact ih p.dropLast.length (by
        rw [List.length_dropLast]
        have : 0 < p.length := List.length_pos.mpr hpe
        omega) p.dropLast rfl
    rw [specAwait_eq (states ++ [(k0, ({} : PathState))]) p, specAwait_eq states p]
    rcases hlk : alookup states (pathKey p) with _ | st
    · rw [alookup_append_none _ hlk]
      by_cases he : k0 = pathKey p
      · rw [show alookup [(k0, ({} : PathState))] (pathKey p) =
          some ({} : PathState) by simp [alookup, he]]
        by_cases hpe : p = []
        · simp [hpe]
        · simp only [hpe, if_false]
          rw [hrec hpe]
          rfl
      · rw [show alookup [(k0, ({} : PathState))] (pathKey p) = none by
          simp [alookup, he]]
        by_cases hpe : p = []
        · simp [hpe]
        · simp only [hpe, if_false]
          exact hrec hpe
    · rw [alookup_append_some _ hlk]
      rcases hq : st.rejectedValueQueue with _ | ⟨e, t⟩
      · by_cases hr : st.rejectedValue = Val.undef
        · rcases hq2 : st.resolvedValueQueue with _ | ⟨w, t2⟩
          · by_cases hv : st.resolvedValue = Val.undef
            · by_cases hpe : p = []
              · simp [hq, hr, hq2, hv, hpe]
              · simp only [hq, hr, hq2, hv]
                simp only [hpe, if_false]
                simp only [ne_eq, not_true_eq_false, if_false]
                exact hrec hpe
            · simp [hq, hr, hq2, hv]
          · simp [hq, hr, hq2]
        · simp [hq, hr]
      · simp [hq]

theorem specAwait_getOrCreate (m : MockState) (path p : List String) :
    specAwait ((getOrCreatePathState m path).2).pathStates p =
      specAwait m.pathStates p := by
  unfold getOrCreatePathState
  dsimp only
  rcases hlk : alookup m.pathStates (pathKey path) with _ | st
  · simp only [hlk]
    exact specAwait_append_fresh hlk p
  · simp only [hlk]

theorem unconfigured_fresh : unconfigured ({} : PathState) :=
  ⟨rfl, rfl, rfl, rfl, rfl, rfl, rfl, rfl⟩

theorem hasAsyncValue_of_unconfigured {st : PathState} (h : unconfigured st) :
    hasAsyncValue st = false := by
  obtain ⟨h1, h2, h3, h4, _, _, _, _⟩ := h
  simp [hasAsyncValue, h1, h2, h3, h4, bne]

theorem hasConfiguredValue_false_of_sync {st : PathState}
    (h5 : st.implementationOnce = []) (h6 : st.implementation = none)
    (h7 : st.returnValueQueue = []) (h8 : st.returnValue = .undef) :
    hasConfiguredValue st = false := by
  simp [hasConfiguredValue, h5, h6, h7, h8, bne]

theorem rootOnlyAsync_resolveSyncKey_none {v : Val} {m : MockState}
    (h : rootOnlyAsync v m) (p : List String) :
    resolveSyncKey m.pathStates p = none := by
  obtain ⟨⟨st0, hlk0, _g1, _g2, _g3, _g4, h5, h6, h7, h8⟩, hother⟩ := h
  have hallfalse : ∀ (q : List String) (st : PathState),
      alookup m.pathStates (pathKey q) = some st → hasConfiguredValue st = false := by
    intro q st hst
    by_cases hpk : pathKey q = ""
    · rw [hpk] at hst
      rw [hlk0] at hst
      have he := Option.some_injective _ hst
      rw [← he]
      exact hasConfiguredValue_false_of_sync h5 h6 h7 h8
    · obtain ⟨_, _, _, _, u5, u6, u7, u8⟩ := hother _ _ hst hpk
      exact hasConfiguredValue_false_of_sync u5 u6 u7 u8
  have hfind : findSyncKey m.pathStates p = none := by
    unfold findSyncKey
    exact findConfiguredKey_none_of_all p hallfalse
  unfold resolveSyncKey
  rcases hgl : p.getLast? with _ | name
  · exact hfind
  · dsimp only
    rcases hlkb : alookup m.pathStates name with _ | mst
    · exact hfind
    · have hmf : hasConfiguredValue mst = false := by
        apply hallfalse [name]
        rw [pathKey_singleton]
        exact hlkb
      dsimp only
      rw [hmf]
      simp only [Bool.false_eq_true, if_false]
      exact hfind

theorem rootOnlyAsync_updateRegistry {v : Val} {m : MockState} {p : List String}
    {f : PathState → PathState}
    (hf : ∀ st, (f st).resolvedValue = st.resolvedValue ∧
      (f st).resolvedValueQueue = st.resolvedValueQueue ∧
      (f st).rejectedValue = st.rejectedValue ∧
      (f st).rejectedValueQueue = st.rejectedValueQueue ∧
      (f st).implementationOnce = st.implementationOnce ∧
      (f st).implementation = st.implementation ∧
      (f st).returnValueQueue = st.returnValueQueue ∧
      (f st).returnValue = st.returnValue)
    (h : rootOnlyAsync v m) : rootOnlyAsync v (updatePathState m p f) := by
  obtain ⟨⟨st0, hlk0, g1, g2, g3, g4, g5, g6, g7, g8⟩, hother⟩ := h
  constructor
  · by_cases hpk : pathKey p = ""
    · have hself := updatePathState_lookup_self f
        (show alookup m.pathStates (pathKey p) = some st0 by rw [hpk]; exact hlk0)
      rw [hpk] at hself
      obtain ⟨e1, e2, e3, e4, e5, e6, e7, e8⟩ := hf st0
      exact ⟨f st0, hself, by rw [e1, g1], by rw [e2, g2], by rw [e3, g3],
        by rw [e4, g4], by rw [e5, g5], by rw [e6, g6], by rw [e7, g7],
        by rw [e8, g8]⟩
    · have hne := updatePathState_lookup_ne (m := m) (p := p) (k := "") f
        (fun he => hpk he.symm)
      exact ⟨st0, by rw [hne]; exact hlk0, g1, g2, g3, g4, g5, g6, g7, g8⟩
  · intro k st hst hk
    by_cases hpk : k = pathKey p
    · subst hpk
      rcases horig : alookup m.pathStates (pathKey p) with _ | stO
      · have hself := updatePathState_lookup_self_none f horig
        rw [hself] at hst
        have he := Option.some_injective _ hst
        obtain ⟨e1, e2, e3, e4, e5, e6, e7, e8⟩ := hf ({} : PathState)
        rw [← he]
        exact ⟨e1, e2, e3, e4, e5, e6, e7, e8⟩
      · have hself := updatePathState_lookup_self f horig
        rw [hself] at hst
        have he := Option.some_injective _ hst
        obtain ⟨u1, u2, u3, u4, u5, u6, u7, u8⟩ := hother _ _ horig hk
        obtain ⟨e1, e2, e3, e4, e5, e6, e7, e8⟩ := hf stO
        rw [← he]
        exact ⟨by rw [e1, u1], by rw [e2, u2], by rw [e3, u3], by rw [e4, u4],
          by rw [e5, u5], by rw [e6, u6], by rw [e7, u7], by rw [e8, u8]⟩
    · have hne := updatePathState_lookup_ne (m := m) (p := p) f hpk
      rw [hne] at hst
      exact hother k st hst hk

theorem rootOnlyAsync_getOrCreatePathState {v : Val} {m : MockState}
    {p : List String} (h : rootOnlyAsync v m) :
    rootOnlyAsync v ((getOrCreatePathState m p).2) := by
  unfold getOrCreatePathState
  dsimp only
  rcases hlk : alookup m.pathStates (pathKey p) with _ | st
  · obtain ⟨⟨st0, hlk0, g1, g2, g3, g4, g5, g6, g7, g8⟩, hother⟩ := h
    constructor
    · exact ⟨st0, alookup_append_some _ hlk0, g1, g2, g3, g4, g5, g6, g7, g8⟩
    · intro k st2 hst hk
      rcases alookup_append_single_cases hst with hcase | ⟨_, _, hstv⟩
      · exact hother k st2 hcase hk
      · rw [hstv]
        exact unconfigured_fresh
  · exact h

theorem rootOnlyAsync_getOrCreateProxy {v : Val} {m : MockState} {p : List String}
    (h : rootOnlyAsync v m) : rootOnlyAsync v ((getOrCreateProxy m p).2) := by
  unfold getOrCreateProxy
  dsimp only
  rcases hlk : alookup m.proxyCache (pathKey p) with _ | pid
  · exact rootOnlyAsync_getOrCreatePathState h
  · exact h

theorem rootOnlyAsync_pushResult {v : Val} {m : MockState} {k : String}
    {r : ResultDesc} {s : SettledDesc} (h : rootOnlyAsync v m) :
    rootOnlyAsync v (pushResult m k r s) := by
  unfold pushResult
  rcases hlk : alookup m.pathStates k with _ | st
  · exact h
  · dsimp only
    obtain ⟨⟨st0, hlk0, g1, g2, g3, g4, g5, g6, g7, g8⟩, hother⟩ := h
    constructor
    · by_cases hpk : k = ""
      · subst hpk
        rw [hlk0] at hlk
        have he := Option.some_injective _ hlk
        subst he
        refine ⟨_, alookup_aset_self _ _ _, ?_, ?_, ?_, ?_, ?_, ?_, ?_, ?_⟩
        all_goals simp [g1, g2, g3, g4, g5, g6, g7, g8]
      · refine ⟨st0, ?_, g1, g2, g3, g4, g5, g6, g7, g8⟩
        show alookup (aset m.pathStates k _) "" = _
        rw [alookup_aset_ne _ _ _ _ (fun he => hpk he.symm)]
        exact hlk0
    · intro k2 st2 hst hk2
      rcases alookup_aset_cases hst with ⟨hkk, hstv⟩ | ⟨_, horig⟩
      · subst hkk
        obtain ⟨u1, u2, u3, u4, u5, u6, u7, u8⟩ := hother _ _ hlk hk2
        rw [hstv]
        exact ⟨u1, u2, u3, u4, u5, u6, u7, u8⟩
      · exact hother _ _ horig hk2

theorem rootOnlyAsync_applyNode {v : Val} {m : MockState} {p : List String}
    {args : List Val} {th : Val} (h : rootOnlyAsync v m) :
    rootOnlyAsync v ((applyNode m p args th).2) := by
  unfold applyNode
  have hrec : rootOnlyAsync v (recordCall m p args th) := by
    unfold recordCall
    dsimp only
    exact rootOnlyAsync_updateRegistry
      (fun st => ⟨rfl, rfl, rfl, rfl, rfl, rfl, rfl, rfl⟩) h
  have hres := rootOnlyAsync_resolveSyncKey_none hrec p
  rw [applyOutcomeFrom_chainCase hres args]
  exact rootOnlyAsync_getOrCreateProxy (rootOnlyAsync_pushResult hrec)

theorem rootOnlyAsync_runChainFrom {v : Val} :
    ∀ (names : List String) (m : MockState) (pre : List String),
      rootOnlyAsync v m → rootOnlyAsync v (runChainFrom m pre names) := by
  intro names
  induction names with
  | nil => exact fun m pre h => h
  | cons name rest ih =>
    intro m pre h
    unfold runChainFrom
    dsimp only
    apply ih
    apply rootOnlyAsync_applyNode
    unfold getChild
    exact rootOnlyAsync_getOrCreateProxy h

theorem rootOnlyAsync_base (v : Val) :
    rootOnlyAsync v (mockResolvedValue chainMockInit [] v) := by
  constructor
  · exact ⟨_, rfl, rfl, rfl, rfl, rfl, rfl, rfl, rfl, rfl⟩
  · intro k st hlk hk
    have hlk2 : alookup [("", ({ resolvedValue := v } : PathState))] k = some st := hlk
    rw [show alookup [("", ({ resolvedValue := v } : PathState))] k =
      (if "" = k then some ({ resolvedValue := v } : PathState) else none)
      from rfl] at hlk2
    rw [if_neg (fun he => hk he.symm)] at hlk2
    exact Option.noConfusion hlk2

theorem specAwait_rootOnly {v : Val} {m : MockState} (hv : v ≠ .undef)
    (h : rootOnlyAsync v m) :
    ∀ p, specAwait m.pathStates p = .resolved v := by
  obtain ⟨⟨st0, hlk0, g1, g2, g3, g4, _g5, _g6, _g7, _g8⟩, hother⟩ := h
  suffices H : ∀ (n : Nat) (p : List String), p.length = n →
      specAwait m.pathStates p = .resolved v by
    exact fun p => H p.length p rfl
  intro n
  induction n using Nat.strong_induction_on with
  | _ n ih =>
    intro p hlen
    rw [specAwait_eq]
    rcases hlk : alookup m.pathStates (pathKey p) with _ | st
    · have hpe : p ≠ [] := by
        intro hc
        subst hc
        have hcast : alookup m.pathStates "" = none := hlk
        rw [hlk0] at hcast
        exact Option.noConfusion hcast
      rw [if_neg hpe]
      exact ih p.dropLast.length (by
        rw [List.length_dropLast]
        have : 0 < p.length := List.length_pos.mpr hpe
        omega) p.dropLast rfl
    · by_cases hpk : pathKey p = ""
      · rw [hpk] at hlk
        rw [hlk0] at hlk
        have he := Option.some_injective _ hlk
        subst he
        simp [g1, g2, g3, g4, hv]
      · obtain ⟨u1, u2, u3, u4, _, _, _, _⟩ := hother _ _ hlk hpk
        have hpe : p ≠ [] := by
          intro hc
          subst hc
          exact hpk rfl
        simp only [u1, u2, u3, u4]
        simp only [ne_eq, not_true_eq_false, if_false]
        rw [if_neg hpe]
        exact ih p.dropLast.length (by
          rw [List.length_dropLast]
          have : 0 < p.length := List.length_pos.mpr hpe
          omega) p.dropLast rfl

/-- C1: awaiting any Node resolves exactly as the specification's walk
describes — first conjunct: the outcome of the `then` trap equals
`specAwait`, the independent transcription of the specification's words
(walk from the node's own path upward to the root, stop at the first state,
inclusive of self, with a configured asynchronous outcome, the one-shot
queue checked before the persistent value, and resolve to `undefined` when
no such ancestor exists). Second conjunct: with `mockResolvedValue v`
configured on the root of a fresh mock, awaiting the node produced by any
fluent chain (of any depth and any names) resolves to `v`. -/
theorem claim1_await_resolution (m : MockState) (path : List String) (v : Val)
    (names : List String) (hv : v ≠ .undef) :
    ((thenResolve m path).1 = specAwait m.pathStates path) ∧
    ((thenResolve (runChain (mockResolvedValue chainMockInit [] v) names)
        names).1 = .resolved v) := by
  constructor
  · rw [thenResolve_fst m path, specAwait_getOrCreate]
  · have hro : rootOnlyAsync v
        (runChain (mockResolvedValue chainMockInit [] v) names) := by
      unfold runChain
      exact rootOnlyAsync_runChainFrom names _ [] (rootOnlyAsync_base v)
    rw [thenResolve_fst, specAwait_getOrCreate]
    exact specAwait_rootOnly hv hro names

/-- C1 witness: awaiting after the depth-2 chain `m.a().b()` on a fresh mock
whose root is configured to resolve to the one-element array `[1]` yields
that array. -/
theorem claim1_witness :
    ((thenResolve chainMockInit ["a", "b"]).1 =
      specAwait chainMockInit.pathStates ["a", "b"]) ∧
    ((thenResolve (runChain (mockResolvedValue chainMockInit []
        (Val.vlist [Val.vint 1])) ["a", "b"]) ["a", "b"]).1 =
      .resolved (Val.vlist [Val.vint 1])) :=
  claim1_await_resolution chainMockInit ["a", "b"] (Val.vlist [Val.vint 1])
    ["a", "b"] (by decide)

/-- C2: behavior resolution for an invocation at a non-empty path first
consults the PathState keyed by the bare last segment name alone: if that
state exists and has configured synchronous behavior, it is used — taking
precedence over the full-path ancestor walk (first conjunct: with a
persistent return value configured on the bare name, the invocation returns
it, whatever the rest of the map holds); otherwise resolution falls back to
the upward walk from the full path (second conjunct). Scenario (third
conjunct): configuring a return value on the bare name `digest` makes the
invocation `m.append('x').digest()` use it. -/
theorem claim2_bare_name_precedence (m : MockState) (path : List String)
    (name : String) (bst : PathState) (args : List Val) (th : Val)
    (hgl : path.getLast? = some name)
    (hb : alookup m.pathStates name = some bst)
    (h1 : bst.implementationOnce = []) (h2 : bst.implementation = none)
    (h3 : bst.returnValueQueue = []) (h4 : bst.returnValue ≠ .undef) :
    (applyNode m path args th).1 = .value bst.returnValue ∧
    (∀ (states : List (String × PathState)) (path2 : List String) (name2 : String),
      path2.getLast? = some name2 →
      (alookup states name2 = none ∨
        ∃ mst, alookup states name2 = some mst ∧ hasConfiguredValue mst = false) →
      resolveSyncKey states path2 = findSyncKey states path2) ∧
    (let mB := mockReturnValue chainMockInit ["digest"] (Val.vstr "sha")
     let r1 := applyNode (getChild mB [] "append").2 ["append"] [Val.vstr "x"] .undef
     let r2 := applyNode (getChild r1.2 ["append"] "digest").2
       ["append", "digest"] [] .undef
     r2.1 = .value (Val.vstr "sha")) := by
  refine ⟨?_, ?_, rfl⟩
  · obtain ⟨bst', hlook2, hf1, hf2, hf3, hf4⟩ :
        ∃ bst', alookup (recordCall m path args th).pathStates name = some bst' ∧
          bst'.implementationOnce = [] ∧ bst'.implementation = none ∧
          bst'.returnValueQueue = [] ∧ bst'.returnValue = bst.returnValue := by
      by_cases hkey : pathKey path = name
      · have hrec := recordCall_lookup_self args th
          (show alookup m.pathStates (pathKey path) = some bst by rw [hkey]; exact hb)
        rw [hkey] at hrec
        exact ⟨_, hrec, by simp [h1], by simp [h2], by simp [h3], by simp⟩
      · have hrec := recordCall_lookup_ne (m := m) (p := path) (k := name) args th
          (fun hh => hkey hh.symm)
        rw [hb] at hrec
        exact ⟨bst, hrec, h1, h2, h3, rfl⟩
    have hpred : hasConfiguredValue bst' = true := by
      simp [hasConfiguredValue, hf1, hf2, hf3, bne, hf4]
      exact h4
    have hres := resolveSyncKey_bare hgl hlook2 hpred
    have happ := applyOutcomeFrom_persistent hres hlook2 hf1 hf2 hf3
      (by rw [hf4]; exact h4) args
    show (applyOutcomeFrom (recordCall m path args th) path args).1 = _
    rw [happ, hf4]
  · intro states path2 name2 hgl2 hfb
    exact resolveSyncKey_no_bare hgl2 hfb

/-- C2 witness: `digest` configured with persistent value "k"; invoking at
path `append.digest` (whose full-path ancestors hold no configuration)
returns "k". -/
theorem claim2_witness :
    (applyNode (mockReturnValue chainMockInit ["digest"] (Val.vstr "k"))
      ["append", "digest"] [Val.vint 7] .undef).1 = .value (Val.vstr "k") ∧
    (∀ (states : List (String × PathState)) (path2 : List String) (name2 : String),
      path2.getLast? = some name2 →
      (alookup states name2 = none ∨
        ∃ mst, alookup states name2 = some mst ∧ hasConfiguredValue mst = false) →
      resolveSyncKey states path2 = findSyncKey states path2) ∧
    (let mB := mockReturnValue chainMockInit ["digest"] (Val.vstr "sha")
     let r1 := applyNode (getChild mB [] "append").2 ["append"] [Val.vstr "x"] .undef
     let r2 := applyNode (getChild r1.2 ["append"] "digest").2
       ["append", "digest"] [] .undef
     r2.1 = .value (Val.vstr "sha")) :=
  claim2_bare_name_precedence
    (mockReturnValue chainMockInit ["digest"] (Val.vstr "k"))
    ["append", "digest"] "digest" { returnValue := Val.vstr "k" }
    [Val.vint 7] .undef rfl rfl rfl rfl rfl (by decide)

/-- C3: one-shot configured values are consumed in FIFO order, then
resolution falls back to the persistent value: with one-shot queue [Q1, Q2]
and persistent return value R configured on the resolved (root) PathState,
four successive invocations return Q1, Q2, R, R. Furthermore (scenario),
with only `m.digest.mockReturnValueOnce('h1')` configured, the first
evaluation of `m.append('x').digest()` returns 'h1' and the second returns a
chainable Node, not 'h1' again. -/
theorem claim3_one_shot_fifo_fallback (m : MockState) (st : PathState)
    (q1 q2 r : Val) (a1 a2 a3 a4 : List Val) (th : Val)
    (h : alookup m.pathStates "" = some st)
    (h1 : st.implementationOnce = []) (h2 : st.implementation = none)
    (hq : st.returnValueQueue = [q1, q2]) (hr : st.returnValue = r)
    (hrne : r ≠ .undef) :
    ((applyNode m [] a1 th).1 = .value q1 ∧
     (applyNode (applyNode m [] a1 th).2 [] a2 th).1 = .value q2 ∧
     (applyNode (applyNode (applyNode m [] a1 th).2 [] a2 th).2 [] a3 th).1 =
       .value r ∧
     (applyNode (applyNode (applyNode (applyNode m [] a1 th).2 [] a2 th).2
       [] a3 th).2 [] a4 th).1 = .value r) ∧
    (let mA := mockReturnValueOnce chainMockInit ["digest"] (Val.vstr "h1")
     let r1a := applyNode (getChild mA [] "append").2 ["append"] [Val.vstr "x"] .undef
     let r1b := applyNode (getChild r1a.2 ["append"] "digest").2
       ["append", "digest"] [] .undef
     let r2a := applyNode (getChild r1b.2 [] "append").2 ["append"] [Val.vstr "x"] .undef
     let r2b := applyNode (getChild r2a.2 ["append"] "digest").2
       ["append", "digest"] [] .undef
     r1b.1 = .value (Val.vstr "h1") ∧ ∃ pid, r2b.1 = .chain pid) := by
  constructor
  · obtain ⟨f1, st1, hl1, h11, h12, hq1, hr1⟩ :=
      applyNode_root_shift h h1 h2 hq a1 th
    obtain ⟨f2, st2, hl2, h21, h22, hq2, hr2⟩ :=
      applyNode_root_shift hl1 h11 h12 hq1 a2 th
    have hrv2 : st2.returnValue = r := by rw [hr2, hr1, hr]
    obtain ⟨f3, st3, hl3, h31, h32, hq3, hr3⟩ :=
      applyNode_root_persistent hl2 h21 h22 hq2 (by rw [hrv2]; exact hrne) a3 th
    have hrv3 : st3.returnValue = r := by rw [hr3, hrv2]
    obtain ⟨f4, st4, hl4, h41, h42, hq4, hr4⟩ :=
      applyNode_root_persistent hl3 h31 h32 hq3 (by rw [hrv3]; exact hrne) a4 th
    refine ⟨f1, f2, ?_, ?_⟩
    · rw [f3, hrv2]
    · rw [f4, hrv3]
  · exact ⟨rfl, 2, rfl⟩

/-- C3 witness: root configured with one-shot queue [1, 2] and persistent 9;
the four calls return 1, 2, 9, 9 (and the digest scenario holds). -/
theorem claim3_witness :
    (let m0 := mockReturnValue (mockReturnValueOnce (mockReturnValueOnce
        chainMockInit [] (Val.vint 1)) [] (Val.vint 2)) [] (Val.vint 9)
     let s1 := applyNode m0 [] [] .undef
     let s2 := applyNode s1.2 [] [] .undef
     let s3 := applyNode s2.2 [] [] .undef
     let s4 := applyNode s3.2 [] [] .undef
     s1.1 = .value (Val.vint 1) ∧ s2.1 = .value (Val.vint 2) ∧
     s3.1 = .value (Val.vint 9) ∧ s4.1 = .value (Val.vint 9)) ∧
    (let mA := mockReturnValueOnce chainMockInit ["digest"] (Val.vstr "h1")
     let r1a := applyNode (getChild mA [] "append").2 ["append"] [Val.vstr "x"] .undef
     let r1b := applyNode (getChild r1a.2 ["append"] "digest").2
       ["append", "digest"] [] .undef
     let r2a := applyNode (getChild r1b.2 [] "append").2 ["append"] [Val.vstr "x"] .undef
     let r2b := applyNode (getChild r2a.2 ["append"] "digest").2
       ["append", "digest"] [] .undef
     r1b.1 = .value (Val.vstr "h1") ∧ ∃ pid, r2b.1 = .chain pid) :=
  claim3_one_shot_fifo_fallback
    (mockReturnValue (mockReturnValueOnce (mockReturnValueOnce chainMockInit []
      (Val.vint 1)) [] (Val.vint 2)) [] (Val.vint 9))
    { returnValue := Val.vint 9, returnValueQueue := [Val.vint 1, Val.vint 2] }
    (Val.vint 1) (Val.vint 2) (Val.vint 9) [] [] [] [] .undef
    rfl rfl rfl rfl rfl (by decide)

/-- C8: `mockClear()` on the root erases only Call Registry contents for
every PathState (every key's state keeps all configured values and
implementations, with its registry emptied), and a call made after clear()
still returns the previously configured persistent value. -/
theorem claim8_clear_erases_only_registries (m : MockState) (rootId : Nat)
    (st : PathState) (r : Val) (args : List Val) (th : Val)
    (hcache : alookup m.proxyCache "" = some rootId)
    (hst : alookup m.pathStates "" = some st)
    (h1 : st.implementationOnce = []) (h2 : st.implementation = none)
    (h3 : st.returnValueQueue = []) (h4 : st.returnValue = r) (h5 : r ≠ .undef) :
    ∃ m', mockClear m [] = .ok (rootId, m') ∧
      (∀ k, alookup m'.pathStates k =
        (alookup m.pathStates k).map (fun s => { s with mock := {} })) ∧
      (applyNode m' [] args th).1 = .value r := by
  refine ⟨{ m with pathStates := clearRegistries m.pathStates }, ?_, ?_, ?_⟩
  · unfold mockClear
    rw [if_neg (by simp)]
    show Except.ok (getOrCreateProxy { m with pathStates := clearRegistries m.pathStates } []) = _
    have hc1 : alookup ({ m with pathStates := clearRegistries m.pathStates } :
        MockState).proxyCache (pathKey []) = some rootId := hcache
    rw [getOrCreateProxy_of_cached hc1]
  · intro k
    show alookup (clearRegistries m.pathStates) k = _
    unfold clearRegistries
    exact alookup_map_values m.pathStates (fun s => { s with mock := {} }) k
  · have hlook : alookup ({ m with pathStates := clearRegistries m.pathStates } :
        MockState).pathStates "" = some { st with mock := {} } := by
      show alookup (clearRegistries m.pathStates) "" = _
      unfold clearRegistries
      have hmv := alookup_map_values m.pathStates (fun s => { s with mock := {} }) ""
      rw [hst] at hmv
      exact hmv
    obtain ⟨f, _⟩ := applyNode_root_persistent hlook (by simp [h1]) (by simp [h2])
      (by simp [h3]) (by simp [h4, h5]) args th
    rw [f]
    simp [h4]

/-- C8 witness: root configured with persistent value 7; clear succeeds on
the root, empties every registry, and the next call still returns 7. -/
theorem claim8_witness :
    ∃ m', mockClear (mockReturnValue chainMockInit [] (Val.vint 7)) [] =
        .ok (0, m') ∧
      (∀ k, alookup m'.pathStates k =
        (alookup (mockReturnValue chainMockInit [] (Val.vint 7)).pathStates k).map
          (fun s => { s with mock := {} })) ∧
      (applyNode m' [] [] .undef).1 = .value (Val.vint 7) :=
  claim8_clear_erases_only_registries
    (mockReturnValue chainMockInit [] (Val.vint 7)) 0
    { returnValue := Val.vint 7 } (Val.vint 7) [] .undef
    rfl rfl rfl rfl rfl rfl (by decide)

/-- C10: configuring a persistent value of `undefined` is indistinguishable
from not configuring one. First two conjuncts: on a state whose persistent
return (resp. resolved) value is `undefined`, the synchronous (resp.
asynchronous) configured-behavior test reduces to the test of the remaining
fields alone. Remaining conjuncts: after `mockReturnValue(undefined)` an
invocation still returns the Node itself for chaining; after
`mockResolvedValue(undefined)` on `a` the await-time walk keeps walking and
delivers the root's value; only the one-shot queues deliver `undefined` as an
explicitly configured value (both for await and for synchronous return). -/
theorem claim10_undefined_not_configured (st stA : PathState)
    (hru : st.returnValue = .undef) (hau : stA.resolvedValue = .undef) :
    (hasConfiguredValue st =
      (!st.implementationOnce.isEmpty || st.implementation.isSome ||
        !st.returnValueQueue.isEmpty)) ∧
    (hasAsyncValue stA =
      (!stA.rejectedValueQueue.isEmpty || stA.rejectedValue != Val.undef ||
        !stA.resolvedValueQueue.isEmpty)) ∧
    (∃ pid, (applyNode (mockReturnValue chainMockInit [] .undef) [] [] .undef).1 =
      .chain pid) ∧
    ((thenResolve (mockResolvedValue (mockResolvedValue chainMockInit []
        (Val.vint 5)) ["a"] .undef) ["a"]).1 = .resolved (Val.vint 5)) ∧
    ((thenResolve (mockResolvedValueOnce (mockResolvedValue chainMockInit []
        (Val.vint 5)) ["a"] .undef) ["a"]).1 = .resolved .undef) ∧
    ((applyNode (mockReturnValueOnce chainMockInit [] .undef) [] [] .undef).1 =
      .value .undef) := by
  refine ⟨?_, ?_, ⟨0, rfl⟩, rfl, rfl, rfl⟩
  · unfold hasConfiguredValue
    rw [hru]
    simp [bne]
  · unfold hasAsyncValue
    rw [hau]
    simp [bne]

/-- C10 witness: both predicate reductions evaluated on the fresh state. -/
theorem claim10_witness :
    (hasConfiguredValue {} =
      (!({} : PathState).implementationOnce.isEmpty ||
        ({} : PathState).implementation.isSome ||
        !({} : PathState).returnValueQueue.isEmpty)) ∧
    (hasAsyncValue {} =
      (!({} : PathState).rejectedValueQueue.isEmpty ||
        ({} : PathState).rejectedValue != Val.undef ||
        !({} : PathState).resolvedValueQueue.isEmpty)) ∧
    (∃ pid, (applyNode (mockReturnValue chainMockInit [] .undef) [] [] .undef).1 =
      .chain pid) ∧
    ((thenResolve (mockResolvedValue (mockResolvedValue chainMockInit []
        (Val.vint 5)) ["a"] .undef) ["a"]).1 = .resolved (Val.vint 5)) ∧
    ((thenResolve (mockResolvedValueOnce (mockResolvedValue chainMockInit []
        (Val.vint 5)) ["a"] .undef) ["a"]).1 = .resolved .undef) ∧
    ((applyNode (mockReturnValueOnce chainMockInit [] .undef) [] [] .undef).1 =
      .value .undef) :=
  claim10_undefined_not_configured {} {} rfl rfl

theorem getPathSegments_length {path : List String} (h : path ≠ []) :
    (getPathSegments path).length = path.length := by
  unfold getPathSegments
  rw [if_neg (by simp [List.isEmpty_iff, h])]
  simp

theorem getElem?_getPathSegments {path : List String} {j : Nat}
    (h : j < path.length) :
    (getPathSegments path)[j]? = some (pathKey (path.take (j + 1))) := by
  have hne : path ≠ [] := by
    intro hc
    subst hc
    simp at h
  unfold getPathSegments
  rw [if_neg (by simp [List.isEmpty_iff, hne])]
  rw [List.getElem?_map, List.getElem?_range h]
  rfl

theorem segStates_getElem? (states : List (String × PathState))
    {path : List String} {j : Nat} (h : j < path.length) :
    ((getPathSegments path).map (getPathState states))[j]? =
      some (alookup states (pathKey (path.take (j + 1)))) := by
  rw [List.getElem?_map, getElem?_getPathSegments h]
  rfl

theorem counts_getElem? (states : List (String × PathState))
    {path : List String} {j : Nat} (h : j < path.length) :
    (((getPathSegments path).map (getPathState states)).map
      (fun s => (s.map (fun st => st.mock.calls.length)).getD 0))[j]? =
      some ((segCalls states path j).length) := by
  rw [List.getElem?_map, segStates_getElem? states h]
  unfold segCalls
  rcases alookup states (pathKey (path.take (j + 1))) with _ | st <;> rfl

/-- C5: the called-with matcher, given one expected argument array per
segment of a chain with at least one segment, passes exactly when a single
call index exists at which every segment's recorded call deep-equals the
corresponding expected arguments — matching is positional-by-call-index
across all segments simultaneously, not independent per segment. -/
theorem claim5_called_with_positional (eqFn : List Val → List Val → Bool)
    (states : List (String × PathState)) (path : List String)
    (argsPerSegment : List (List Val)) (h1 : path ≠ [])
    (h2 : argsPerSegment.length = path.length) :
    ∃ res, toHaveBeenChainCalledWith eqFn states path argsPerSegment =
        Except.ok res ∧
      (res.pass = true ↔ ∃ i, ∀ j, j < path.length →
        i < (segCalls states path j).length ∧
        eqFn ((segCalls states path j).getD i [])
          (argsPerSegment.getD j []) = true) := by
  have hSeg := getPathSegments_isEmpty_false h1
  have hlenSeg := getPathSegments_length h1
  have hguard : (argsPerSegment.length != (getPathSegments path).length) = false := by
    simp [bne, hlenSeg, h2]
  unfold toHaveBeenChainCalledWith
  dsimp only
  rw [hSeg]
  simp only [Bool.false_eq_true, if_false]
  rw [hguard]
  simp only [Bool.false_eq_true, if_false]
  set sts := (getPathSegments path).map (getPathState states) with hsts
  set cc := sts.map (fun s => (s.map (fun st => st.mock.calls.length)).getD 0)
    with hcc
  have hccLen : cc.length = path.length := by
    rw [hcc, hsts]
    simp [hlenSeg]
  have hccNe : cc ≠ [] := by
    intro hcontra
    rw [hcontra] at hccLen
    simp at hccLen
    exact h1 (List.length_eq_zero.mp hccLen.symm)
  have hccGet : ∀ j, j < path.length →
      cc[j]? = some ((segCalls states path j).length) := by
    intro j hj
    rw [hcc, hsts]
    exact counts_getElem? states hj
  have hstsD : ∀ j, j < path.length →
      sts.getD j none = alookup states (pathKey (path.take (j + 1))) := by
    intro j hj
    rw [List.getD_eq_getElem?_getD, hsts, segStates_getElem? states hj]
    rfl
  have hminIff : ∀ i, i < minList cc ↔
      ∀ j, j < path.length → i < (segCalls states path j).length := by
    intro i
    rw [lt_minList_iff hccNe i]
    constructor
    · intro hall j hj
      have hjcc : j < cc.length := by rw [hccLen]; exact hj
      have hx : cc[j] = (segCalls states path j).length := by
        have hq := hccGet j hj
        rw [List.getElem?_eq_getElem hjcc] at hq
        exact Option.some_injective _ hq
      have := hall _ (List.getElem_mem hjcc)
      rwa [hx] at this
    · intro hall x hx
      obtain ⟨j, hjlen, hjget⟩ := List.mem_iff_getElem.mp hx
      have hj' : j < path.length := by rwa [hccLen] at hjlen
      have hxx : x = (segCalls states path j).length := by
        have hq := hccGet j hj'
        rw [List.getElem?_eq_getElem hjlen, hjget] at hq
        exact Option.some_injective _ hq
      rw [hxx]
      exact hall j hj'
  by_cases hz : (minList cc == 0) = true
  · rw [if_pos hz]
    refine ⟨_, rfl, ?_⟩
    refine iff_of_false (by simp) ?_
    rintro ⟨i, hi⟩
    have h0 : minList cc = 0 := by simpa using hz
    obtain ⟨j, hjlen, hjget⟩ := List.mem_iff_getElem.mp (minList_mem hccNe)
    have hj' : j < path.length := by rwa [hccLen] at hjlen
    have hlen0 : (segCalls states path j).length = 0 := by
      have hq := hccGet j hj'
      rw [List.getElem?_eq_getElem hjlen, hjget, h0] at hq
      exact (Option.some_injective _ hq).symm
    have := (hi j hj').1
    omega
  · rw [if_neg hz]
    split
    next idx hF =>
      refine ⟨_, rfl, ?_⟩
      refine iff_of_true rfl ?_
      have hPidx := List.find?_some hF
      have hidxlt : idx < minList cc := by
        simpa [List.mem_range] using List.mem_of_find?_eq_some hF
      refine ⟨idx, fun j hj => ⟨(hminIff idx).mp hidxlt j hj, ?_⟩⟩
      have hj2 : j < (getPathSegments path).length := by
        rw [hlenSeg]
        exact hj
      have hall := List.all_eq_true.mp hPidx j (List.mem_range.mpr hj2)
      rw [hstsD j hj] at hall
      exact hall
    next hF =>
      refine ⟨_, rfl, ?_⟩
      refine iff_of_false (by simp) ?_
      rintro ⟨i, hi⟩
      have hilt : i < minList cc := (hminIff i).mpr (fun j hj => (hi j hj).1)
      have hnotP := (List.find?_eq_none.mp hF) i (List.mem_range.mpr hilt)
      apply hnotP
      rw [List.all_eq_true]
      intro j hjmem
      have hj : j < path.length := by
        rw [← hlenSeg]
        exact List.mem_range.mp hjmem
      rw [hstsD j hj]
      exact (hi j hj).2

/-- C5 witness: two independent two-segment invocations of `x.y` (call index
0 with args 1/2, call index 1 with args 3/4); the iff is instantiated at the
cross-matched expectation [args 1, args 4]. -/
theorem claim5_witness :
    ∃ res, toHaveBeenChainCalledWith stdEq
        [("x", { mock := { calls := [[Val.vint 1], [Val.vint 3]] } }),
         ("x.y", { mock := { calls := [[Val.vint 2], [Val.vint 4]] } })]
        ["x", "y"] [[Val.vint 1], [Val.vint 4]] = Except.ok res ∧
      (res.pass = true ↔ ∃ i, ∀ j, j < (["x", "y"] : List String).length →
        i < (segCalls
          [("x", { mock := { calls := [[Val.vint 1], [Val.vint 3]] } }),
           ("x.y", { mock := { calls := [[Val.vint 2], [Val.vint 4]] } })]
          ["x", "y"] j).length ∧
        stdEq ((segCalls
          [("x", { mock := { calls := [[Val.vint 1], [Val.vint 3]] } }),
           ("x.y", { mock := { calls := [[Val.vint 2], [Val.vint 4]] } })]
          ["x", "y"] j).getD i [])
          (([[Val.vint 1], [Val.vint 4]] : List (List Val)).getD j []) = true) :=
  claim5_called_with_positional stdEq
    [("x", { mock := { calls := [[Val.vint 1], [Val.vint 3]] } }),
     ("x.y", { mock := { calls := [[Val.vint 2], [Val.vint 4]] } })]
    ["x", "y"] [[Val.vint 1], [Val.vint 4]] (by decide) (by decide)

/-- C6: on a target chain with at least one segment and at least one
recorded call among its segments, the last-called-with matcher returns
exactly the result of the nth-called-with matcher invoked at n = the maximum
Call Registry length across all of the chain's segments, with the same
expected argument arrays. -/
theorem claim6_last_eq_nth_at_max (eqFn : List Val → List Val → Bool)
    (states : List (String × PathState)) (path : List String)
    (argsPerSegment : List (List Val)) (h1 : path ≠ [])
    (h2 : 0 < maxRegistryLen states path) :
    toHaveBeenLastChainCalledWith eqFn states path argsPerSegment =
      toHaveBeenNthChainCalledWith eqFn states path (maxRegistryLen states path)
        argsPerSegment := by
  have hSeg := getPathSegments_isEmpty_false h1
  have hMax : (maxRegistryLen states path == 0) = false := by
    simp only [beq_eq_false_iff_ne]
    omega
  unfold toHaveBeenLastChainCalledWith
  dsimp only
  rw [hSeg]
  simp only [Bool.false_eq_true, if_false, hMax]

/-- C6 witness: a two-segment chain with one recorded call per segment. -/
theorem claim6_witness :
    toHaveBeenLastChainCalledWith stdEq
        [("x", { mock := { calls := [[Val.vint 1]] } }),
         ("x.y", { mock := { calls := [[Val.vint 2]] } })]
        ["x", "y"] [[Val.vint 1], [Val.vint 2]] =
      toHaveBeenNthChainCalledWith stdEq
        [("x", { mock := { calls := [[Val.vint 1]] } }),
         ("x.y", { mock := { calls := [[Val.vint 2]] } })]
        ["x", "y"]
        (maxRegistryLen
          [("x", { mock := { calls := [[Val.vint 1]] } }),
           ("x.y", { mock := { calls := [[Val.vint 2]] } })]
          ["x", "y"])
        [[Val.vint 1], [Val.vint 2]] :=
  claim6_last_eq_nth_at_max stdEq
    [("x", { mock := { calls := [[Val.vint 1]] } }),
     ("x.y", { mock := { calls := [[Val.vint 2]] } })]
    ["x", "y"] [[Val.vint 1], [Val.vint 2]] (by decide) (by decide)

end ChainMock
